import Mathlib

/-
Shallow embedding of the epoch-versioned cluster-map ingestion core and the
PG lifecycle manager of a storage-node daemon (`src/crimson/osd/osd.cc`),
together with proofs of the specified properties.

Conventions of the embedding:
* machine integers (`epoch_t`, `version_t`, both `uint64_t`) are modelled as
  `Nat`; the one place where unsigned *underflow* is reachable for small
  values (`x - 1` on a possibly-zero unsigned) is modelled explicitly with
  `u64sub1`; additions never get near `2^64` in any state considered here;
* asynchronous futures become plain state-passing functions; a failed future
  (a C++ exception) becomes `Option.none` or an explicit failure flag;
* external collaborators (map encode/decode, incremental application, the
  placement algorithm, the map-authority client) are modelled from the
  specification, since their code is outside `osd.cc`; everything else is
  translated from the source.
-/

namespace CrimsonOSD

/- Epochs (`epoch_t`) are monotonically increasing cluster-map version
numbers, modelled as `Nat`; 0 is the sentinel "no map yet" value. -/

/-- `2^64`, the modulus of the C++ `uint64_t` epoch/version arithmetic. -/
def U64LIMIT : Nat := 2 ^ 64

/-- `x - 1` in `uint64_t` arithmetic: wraps to `2^64 - 1` when `x = 0`. -/
def u64sub1 (x : Nat) : Nat := (x + (U64LIMIT - 1)) % U64LIMIT

/-- Association-list lookup (first binding wins); stands in for the keyed
maps (`std::map`, caches) of the source. -/
def alLookup {κ α : Type} [DecidableEq κ] : List (κ × α) → κ → Option α
  | [], _ => none
  | p :: l, k => if p.1 = k then some p.2 else alLookup l k

/-- Association-list overwrite: the new binding replaces any previous
binding of the same key. -/
def alInsert {κ α : Type} [DecidableEq κ] (l : List (κ × α)) (k : κ) (v : α) :
    List (κ × α) :=
  (k, v) :: l.filter (fun p => ! (p.1 == k))

/-- Erasure-code profile payload (`ec_profile_t = map<string,string>`). -/
abbrev ECProfile := List (String × String)

/-- Modelled from the spec: one pool's definition (`pg_pool_t`, defined
outside `src/`): only the observers called by `osd.cc` are modelled
(the "pool is being created" flag, replicated/erasure kind, the erasure
profile name, and the PG count). -/
structure PoolInfo where
  creating : Bool
  replicated : Bool
  erasure : Bool
  erasure_code_profile : String
  pg_num : Nat
deriving DecidableEq

/-- Modelled from the spec: a cluster-map snapshot (`OSDMap`, defined outside
`src/`): "an immutable, versioned record of cluster membership, pool
definitions, and placement rules at a specific epoch".  Addresses are
abstracted to `Nat`.  Only the observers `osd.cc` calls are modelled. -/
structure OSDMap where
  epoch : Nat
  pools : List (Nat × PoolInfo)
  pool_names : List (Nat × String)
  ec_profiles : List (String × ECProfile)
  up_osds : List Nat
  osd_addrs : List (Nat × Nat)
  osd_cluster_addrs : List (Nat × Nat)
  destroyed_osds : List Nat
  exists_osds : List Nat
  up_from : List (Nat × Nat)
  noup_osds : List Nat
  sortbitwise : Bool
  require_osd_release : Nat
deriving DecidableEq

/-- The default-constructed (epoch-0, empty) map, as produced by
`new OSDMap()` / `std::make_unique<OSDMap>()`. -/
def emptyOSDMap : OSDMap :=
  { epoch := 0, pools := [], pool_names := [], ec_profiles := [],
    up_osds := [], osd_addrs := [], osd_cluster_addrs := [],
    destroyed_osds := [], exists_osds := [], up_from := [], noup_osds := [],
    sortbitwise := false, require_osd_release := 0 }

def OSDMap.is_up (m : OSDMap) (id : Nat) : Bool := m.up_osds.contains id

def OSDMap.get_addrs (m : OSDMap) (id : Nat) : Nat :=
  (alLookup m.osd_addrs id).getD 0

def OSDMap.get_cluster_addrs (m : OSDMap) (id : Nat) : Nat :=
  (alLookup m.osd_cluster_addrs id).getD 0

def OSDMap.is_destroyed (m : OSDMap) (id : Nat) : Bool :=
  m.destroyed_osds.contains id

def OSDMap.exists_osd (m : OSDMap) (id : Nat) : Bool :=
  m.exists_osds.contains id

def OSDMap.is_noup (m : OSDMap) (id : Nat) : Bool := m.noup_osds.contains id

def OSDMap.get_up_from (m : OSDMap) (id : Nat) : Nat :=
  (alLookup m.up_from id).getD 0

def OSDMap.get_pg_pool (m : OSDMap) (pool : Nat) : Option PoolInfo :=
  alLookup m.pools pool

def OSDMap.have_pg_pool (m : OSDMap) (pool : Nat) : Bool :=
  (m.get_pg_pool pool).isSome

def OSDMap.get_pool_name (m : OSDMap) (pool : Nat) : String :=
  (alLookup m.pool_names pool).getD ""

def OSDMap.get_erasure_code_profile (m : OSDMap) (p : String) : ECProfile :=
  (alLookup m.ec_profiles p).getD []

/-- The numeric value of `ceph_release_t::luminous`. -/
def luminous : Nat := 12

/-- The numeric value of `ceph_release_t::nautilus`. -/
def nautilus : Nat := 14

/-- Default of the `osd_map_message_max` configurable. -/
def osd_map_message_max : Nat := 40

/-- The reserved feature bit `CEPH_FEATURE_RESERVED` (`1ULL << 63`). -/
def CEPH_FEATURE_RESERVED : Nat := 2 ^ 63

/-- Modelled from the spec: an incremental diff (`OSDMap::Incremental`,
defined outside `src/`): "an encoded delta transforming epoch e−1's snapshot
into epoch e's", carrying the epoch it produces, the feature set it was
encoded with, and the membership/pool changes. -/
structure Incremental where
  new_epoch : Nat
  encode_features : Nat
  new_up : List (Nat × Nat)
  new_down : List Nat
  new_pools : List (Nat × PoolInfo)
  old_pools : List Nat
deriving DecidableEq

/-- Modelled from the spec: `OSDMap::apply_incremental` (defined outside
`src/`) transforms epoch e−1's snapshot into epoch e's by applying the
delta's membership and pool changes. -/
def OSDMap.apply_incremental (m : OSDMap) (inc : Incremental) : OSDMap :=
  { m with
    epoch := inc.new_epoch,
    up_osds :=
      inc.new_up.map Prod.fst ++
        m.up_osds.filter (fun i =>
          ! inc.new_down.contains i && ! (inc.new_up.map Prod.fst).contains i),
    osd_addrs := inc.new_up.foldl (fun l p => alInsert l p.1 p.2) m.osd_addrs,
    pools :=
      inc.new_pools.foldl (fun l p => alInsert l p.1 p.2)
        (m.pools.filter (fun p => ! inc.old_pools.contains p.1)) }

/-- Modelled from the spec: an encoded map blob (`bufferlist`).  The content
is either a full-map encoding or an incremental-diff encoding; byte-level
layout is abstracted away (features change layout, not content). -/
inductive Bytes where
  | full (m : OSDMap)
  | inc (i : Incremental)
deriving DecidableEq

/-- Modelled from the spec: full-map decode (`OSDMap::decode`).  Decoding
bytes that are not a full encoding yields the default-constructed map (the
C++ code would throw; no caller below reaches that case). -/
def decodeMap : Bytes → OSDMap
  | .full m => m
  | .inc _ => emptyOSDMap

/-- Modelled from the spec: full-map encode (`OSDMap::encode`); the feature
word selects the wire layout and does not alter the decoded content. -/
def OSDMap.encodeMap (m : OSDMap) (_features : Nat) : Bytes := Bytes.full m

/-- Modelled from the spec: incremental decode (`Incremental::decode`). -/
def decodeInc : Bytes → Incremental
  | .inc i => i
  | .full _ =>
    { new_epoch := 0, encode_features := 0, new_up := [], new_down := [],
      new_pools := [], old_pools := [] }

/-- Modelled from the spec: a map-batch message (`MOSDMap`, defined outside
`src/`): a batch of map versions, full and/or incremental, plus the
authority's known `[oldest_map, newest_map]` bounds. -/
structure MOSDMap where
  fsid : Nat
  oldest_map : Nat
  newest_map : Nat
  maps : List (Nat × Bytes)
  incremental_maps : List (Nat × Bytes)
  src_is_mon : Bool
deriving DecidableEq

/-- All epochs for which the message carries an encoding. -/
def MOSDMap.keyEpochs (m : MOSDMap) : List Nat :=
  m.maps.map Prod.fst ++ m.incremental_maps.map Prod.fst

/-- First epoch of the batch (0 when the batch is empty). -/
def MOSDMap.get_first (m : MOSDMap) : Nat :=
  match m.keyEpochs with
  | [] => 0
  | e :: es => es.foldl Nat.min e

/-- Last epoch of the batch (0 when the batch is empty). -/
def MOSDMap.get_last (m : MOSDMap) : Nat :=
  match m.keyEpochs with
  | [] => 0
  | e :: es => es.foldl Nat.max e

/-- The durable, node-identifying superblock (`OSDSuperblock`). -/
structure OSDSuperblock where
  cluster_fsid : Nat
  oldest_map : Nat
  newest_map : Nat
  current_epoch : Nat
  mounted : Nat
  clean_thru : Nat
deriving DecidableEq

/-- The node lifecycle states (`OSDState`). -/
inductive NodeState where
  | initializing
  | preboot
  | booting
  | active
  | stopping
deriving DecidableEq

/-- Placement-group identity (`spg_t`): pool, seed, shard index. -/
structure PGId where
  pool : Nat
  seed : Nat
  shard : Int
deriving DecidableEq

/-- The live PG object, as constructed by `OSD::make_pg` (only the data the
constructor receives is modelled; peering internals are out of scope). -/
structure PG where
  pgid : PGId
  pool : PoolInfo
  name : String
  ec_profile : ECProfile
  create_epoch : Nat
  role : Int
deriving DecidableEq

/-- A PG-creation request (`PGCreateInfo`): identity, referenced epoch, and
whether it originates from the map authority (`by_mon`). -/
structure PGCreateInfo where
  pgid : PGId
  epoch : Nat
  by_mon : Bool
deriving DecidableEq

/-- Result of the (out-of-scope) placement algorithm
(`pg_to_up_acting_osds` / `calc_pg_role`). -/
structure Placement where
  up : List Nat
  up_primary : Int
  acting : List Nat
  acting_primary : Int
  role : Int
deriving DecidableEq

/-- Observable outcome of `OSD::handle_pg_create_info`: the resolved PG (if
any), whether a storage collection was created, and whether an
error/assertion escaped. -/
structure CreateOutcome where
  pg : Option PG
  collection_created : Bool
  error : Bool
deriving DecidableEq

/-- A pending storage transaction (`ceph::os::Transaction`): the per-epoch
map records queued for write, and the queued superblock write. -/
structure Txn where
  map_writes : List (Nat × Bytes)
  sb_write : Option OSDSuperblock
deriving DecidableEq

def Txn.empty : Txn := { map_writes := [], sb_write := none }

/-- One pool's durable final definition (`OSDMeta::load_final_pool_info`). -/
structure FinalPoolInfo where
  info : PoolInfo
  name : String
  ec_profile : ECProfile
deriving DecidableEq

/-- The node-wide state of the OSD: superblock, visible current map, the
decoded-snapshot cache (`osdmaps`), the encoded-bytes cache
(`map_bl_cache`), the committed per-epoch records of the meta collection
(`persisted`), the boot bookkeeping epochs, lifecycle state, bound
addresses, timers, the map-gate watermark, and the durable final-pool-info
store. -/
structure OSDNode where
  whoami : Nat
  superblock : OSDSuperblock
  state : NodeState
  osdmap : OSDMap
  osdmaps : List (Nat × OSDMap)
  map_bl_cache : List (Nat × Bytes)
  persisted : List (Nat × Bytes)
  final_pool_info : List (Nat × FinalPoolInfo)
  up_epoch : Nat
  boot_epoch : Nat
  bind_epoch : Nat
  myaddrs : Nat
  cluster_myaddrs : Nat
  beacon_armed : Bool
  heartbeat_armed : Bool
  gate_epoch : Nat
  hb_require_authorizer : Bool
deriving DecidableEq

/-- Externally visible action requested by a state-machine step: a map
subscription (`shard_services.osdmap_subscribe(start, full)`), sending the
boot announcement, the fatal "i am destroyed" error, or the asynchronous
`monc->get_version` kicked off by `start_boot`. -/
inductive OSDAction where
  | noAction
  | subscribeMaps (start : Nat) (full : Bool)
  | sendBoot
  | fatalDestroyed
  | getVersion
deriving DecidableEq

/-- `OSD::load_map_bl`: the encoded bytes for an epoch, from the byte cache
or else from the meta collection. -/
def OSD.load_map_bl (n : OSDNode) (e : Nat) : Option Bytes :=
  match alLookup n.map_bl_cache e with
  | some bl => some bl
  | none => alLookup n.persisted e

/-- `OSD::load_map`: decode the stored bytes for `e > 0`; epoch 0 resolves
to the default-constructed map without I/O.  `none` is the C++ exception
(missing record). -/
def OSD.load_map (n : OSDNode) (e : Nat) : Option OSDMap :=
  if 0 < e then (OSD.load_map_bl n e).map decodeMap
  else some emptyOSDMap

/-- `OSD::get_map(epoch)`: resolve from the snapshot cache, or load and
insert into the snapshot cache.  Returns the snapshot and the updated
node. -/
def OSD.get_map (n : OSDNode) (e : Nat) : Option (OSDMap × OSDNode) :=
  match alLookup n.osdmaps e with
  | some o => some (o, n)
  | none =>
    (OSD.load_map n e).map
      (fun o => (o, { n with osdmaps := alInsert n.osdmaps e o }))

/-- `OSD::store_map_bl`: write the epoch's bytes through to the meta
collection *inside the caller's transaction* and to the byte cache. -/
def OSD.store_map_bl (n : OSDNode) (t : Txn) (e : Nat) (bl : Bytes) :
    OSDNode × Txn :=
  ({ n with map_bl_cache := alInsert n.map_bl_cache e bl },
   { t with map_writes := t.map_writes ++ [(e, bl)] })

/-- Committing a transaction (`store->do_transaction`): the queued map
records become durable. -/
def OSD.commitTxn (n : OSDNode) (t : Txn) : OSDNode :=
  { n with
    persisted := t.map_writes.foldl (fun ps p => alInsert ps p.1 p.2) n.persisted }

/-- One iteration of the `OSD::store_maps` loop at epoch `e`: a full
encoding is decoded, stored and cached directly; an incremental-only epoch
loads epoch `e-1`, applies the diff, re-encodes and stores the re-encoded
full form; an epoch with neither is logged and skipped.  `none` is the C++
exception from a failed `load_map`. -/
def OSD.store_maps_step (m : MOSDMap) (acc : OSDNode × Txn) (e : Nat) :
    Option (OSDNode × Txn) :=
  match alLookup m.maps e with
  | some bl =>
    let o := decodeMap bl
    let r := OSD.store_map_bl acc.1 acc.2 e bl
    some ({ r.1 with osdmaps := alInsert r.1.osdmaps e o }, r.2)
  | none =>
    match alLookup m.incremental_maps e with
    | some bl =>
      (OSD.load_map acc.1 (e - 1)).map (fun prev =>
        let inc := decodeInc bl
        let o := OSDMap.apply_incremental prev inc
        let fbl := OSDMap.encodeMap o (Nat.lor inc.encode_features CEPH_FEATURE_RESERVED)
        let r := OSD.store_map_bl acc.1 acc.2 e fbl
        ({ r.1 with osdmaps := alInsert r.1.osdmaps e o }, r.2))
    | none => some acc

/-- The `OSD::store_maps` loop over a list of epochs; on an exception the
state mutated so far is kept and the failure is flagged (the transaction is
then never committed). -/
def OSD.store_go (m : MOSDMap) : OSDNode → Txn → List Nat → OSDNode × Txn × Bool
  | n, t, [] => (n, t, true)
  | n, t, e :: es =>
    match OSD.store_maps_step m (n, t) e with
    | none => (n, t, false)
    | some (n1, t1) => OSD.store_go m n1 t1 es

/-- `OSD::store_maps(t, start, m)`: iterate from `start` through
`m.get_last`. -/
def OSD.store_maps (n : OSDNode) (t : Txn) (start : Nat) (m : MOSDMap) :
    OSDNode × Txn × Bool :=
  OSD.store_go m n t (List.range' start (m.get_last + 1 - start))

/-- The superblock update of `OSD::handle_osd_map` after `store_maps`
succeeds: maybe reset `oldest_map`, advance `newest_map`/`current_epoch`,
and note cleanliness only when `boot_epoch` is nonzero. -/
def OSD.update_superblock_for_batch (n : OSDNode) (first last : Nat)
    (skip_maps : Bool) : OSDNode :=
  let sb0 := n.superblock
  let sb1 := if sb0.oldest_map = 0 ∨ skip_maps then { sb0 with oldest_map := first } else sb0
  let sb2 := { sb1 with newest_map := last, current_epoch := last }
  let sb3 :=
    if n.boot_epoch ≠ 0 ∧ sb2.mounted ≤ n.boot_epoch then
      { sb2 with mounted := n.boot_epoch, clean_thru := last }
    else sb2
  { n with superblock := sb3 }

/-- One iteration of the `OSD::committed_osd_maps` advance loop: resolve the
map of epoch `cur`, publish it as the visible current map, and update
`up_epoch`/`boot_epoch` under the `up_epoch != 0` guard. -/
def OSD.advance_step (n : OSDNode) (cur : Nat) : Option OSDNode :=
  (OSD.get_map n cur).map (fun p =>
    if ¬ p.2.up_epoch = 0 ∧ OSDMap.is_up p.1 p.2.whoami = true ∧
        OSDMap.get_addrs p.1 p.2.whoami = p.2.myaddrs then
      if p.2.boot_epoch = 0 then
        { p.2 with osdmap := p.1, up_epoch := p.1.epoch, boot_epoch := p.1.epoch }
      else { p.2 with osdmap := p.1, up_epoch := p.1.epoch }
    else { p.2 with osdmap := p.1 })

/-- The advance loop of `OSD::committed_osd_maps`, recording the sequence of
visible epochs it publishes; a failure keeps the state reached so far. -/
def OSD.advance_loop : OSDNode → List Nat → OSDNode × List Nat × Bool
  | n, [] => (n, [], true)
  | n, e :: es =>
    match OSD.advance_step n e with
    | none => (n, [], false)
    | some n1 =>
      let r := OSD.advance_loop n1 es
      (r.1, n1.osdmap.epoch :: r.2.1, r.2.2)

/-- The activation check of `OSD::committed_osd_maps`: a booting node that
is up at its bound address, at an epoch past its bind epoch, becomes active
and arms the beacon and heartbeat timers. -/
def OSD.activation_check (n : OSDNode) : OSDNode :=
  if OSDMap.is_up n.osdmap n.whoami = true ∧
      OSDMap.get_addrs n.osdmap n.whoami = n.myaddrs ∧
      n.bind_epoch < OSDMap.get_up_from n.osdmap n.whoami then
    if n.state = NodeState.booting then
      { n with state := NodeState.active, beacon_armed := true, heartbeat_armed := true }
    else n
  else n

/-- `OSD::check_osdmap_features`. -/
def OSD.check_osdmap_features (n : OSDNode) : OSDNode :=
  if n.osdmap.require_osd_release < nautilus then
    { n with hb_require_authorizer := false }
  else
    { n with hb_require_authorizer := true }

/-- `OSD::consume_map(epoch)`: broadcast the advance to resident PGs (out
of scope) and release the map gate up to `epoch`. -/
def OSD.consume_map (n : OSDNode) (e : Nat) : OSDNode :=
  { n with gate_epoch := e }

/-- `OSD::should_restart`: the map marks the node down, or records a public
or cluster address other than the one actually bound. -/
def OSD.should_restart (n : OSDNode) : Bool :=
  if OSDMap.is_up n.osdmap n.whoami = false then true
  else if ¬ OSDMap.get_addrs n.osdmap n.whoami = n.myaddrs then true
  else if ¬ OSDMap.get_cluster_addrs n.osdmap n.whoami = n.cluster_myaddrs then true
  else false

/-- `OSD::start_boot`: enter `preboot` and ask the authority for its version
bounds (the asynchronous continuation is `_preboot`). -/
def OSD.start_boot (n : OSDNode) : OSDNode × OSDAction :=
  ({ n with state := NodeState.preboot }, OSDAction.getVersion)

/-- `OSD::restart`: cancel the beacon and heartbeat timers, reset the
last-up epoch, remember the current epoch as the bind epoch, and re-enter
preboot via `start_boot`. -/
def OSD.restart (n : OSDNode) : OSDNode × OSDAction :=
  OSD.start_boot
    { n with beacon_armed := false, heartbeat_armed := false,
             up_epoch := 0, bind_epoch := n.osdmap.epoch }

/-- `OSD::shutdown` (reached from `committed_osd_maps` when the node no
longer exists in the map). -/
def OSD.shutdown (n : OSDNode) : OSDNode :=
  { n with
    superblock :=
      { n.superblock with mounted := n.boot_epoch, clean_thru := n.osdmap.epoch } }

/-- The trailing subscription of `OSD::_preboot` ("get all the latest
maps"): bounded from the next epoch if the authority still has it, else a
full-history request from just below the authority's oldest. -/
def OSD.subscribe_latest (n : OSDNode) (oldest : Nat) : OSDNode × OSDAction :=
  if oldest ≤ n.osdmap.epoch + 1 then
    (n, OSDAction.subscribeMaps (n.osdmap.epoch + 1) false)
  else
    (n, OSDAction.subscribeMaps (u64sub1 oldest) true)

/-- `OSD::_preboot(oldest, newest)`: the preboot decision table.  The
destroyed check fails permanently only when the current epoch is already
within one epoch of the authority's newest (`epoch > newest - 1`, in
unsigned arithmetic); otherwise every non-boot branch falls through to the
subscription request. -/
def OSD._preboot (n : OSDNode) (oldest newest : Nat) : OSDNode × OSDAction :=
  if n.osdmap.epoch = 0 then OSD.subscribe_latest n oldest
  else if OSDMap.is_destroyed n.osdmap n.whoami = true then
    if u64sub1 newest < n.osdmap.epoch then (n, OSDAction.fatalDestroyed)
    else OSD.subscribe_latest n oldest
  else if OSDMap.is_noup n.osdmap n.whoami = true then OSD.subscribe_latest n oldest
  else if n.osdmap.sortbitwise = false then OSD.subscribe_latest n oldest
  else if n.osdmap.require_osd_release < luminous then OSD.subscribe_latest n oldest
  else if u64sub1 oldest ≤ n.osdmap.epoch ∧
          newest < n.osdmap.epoch + osd_map_message_max then
    ({ n with state := NodeState.booting }, OSDAction.sendBoot)
  else OSD.subscribe_latest n oldest

/-- The lifecycle dispatch at the end of `OSD::committed_osd_maps`:
`active` → shutdown/restart checks, `preboot` → `_preboot` (for a
mon-sourced batch) or `start_boot`. -/
def OSD.lifecycle_dispatch (n : OSDNode) (m : MOSDMap) : OSDNode × OSDAction :=
  if n.state = NodeState.active then
    if OSDMap.exists_osd n.osdmap n.whoami = false then
      (OSD.shutdown n, OSDAction.noAction)
    else if OSD.should_restart n = true then OSD.restart n
    else (n, OSDAction.noAction)
  else if n.state = NodeState.preboot then
    if m.src_is_mon then OSD._preboot n m.oldest_map m.newest_map
    else OSD.start_boot n
  else (n, OSDAction.noAction)

/-- The stages of `OSD::committed_osd_maps` between the advance loop and
the lifecycle dispatch: activation check, feature check, `consume_map` of
the now-current epoch. -/
def OSD.tail_prestage (n0 : OSDNode) : OSDNode :=
  OSD.consume_map (OSD.check_osdmap_features (OSD.activation_check n0))
    (OSD.check_osdmap_features (OSD.activation_check n0)).osdmap.epoch

/-- The tail of `OSD::committed_osd_maps` after the advance loop. -/
def OSD.committed_tail (n0 : OSDNode) (m : MOSDMap) : OSDNode × OSDAction :=
  OSD.lifecycle_dispatch (OSD.tail_prestage n0) m

/-- Outcome of `OSD::handle_osd_map`: the batch was ignored, a subscription
was requested instead of applying, `store_maps` threw, or the batch was
applied (with the range used, the visible-epoch trace of the advance loop,
whether the advance loop completed, and the requested follow-up action). -/
inductive HandleResult where
  | ignored (n : OSDNode)
  | subscribe (n : OSDNode) (start : Nat) (full : Bool)
  | storeFailed (n : OSDNode)
  | applied (n : OSDNode) (start last : Nat) (trace : List Nat)
      (ok : Bool) (act : OSDAction)
deriving DecidableEq

def HandleResult.node : HandleResult → OSDNode
  | .ignored n => n
  | .subscribe n _ _ => n
  | .storeFailed n => n
  | .applied n _ _ _ _ _ => n

def HandleResult.trace : HandleResult → List Nat
  | .applied _ _ _ tr _ _ => tr
  | _ => []

def HandleResult.isApplied : HandleResult → Bool
  | .applied _ _ _ _ _ _ => true
  | _ => false

def HandleResult.isStoreFailed : HandleResult → Bool
  | .storeFailed _ => true
  | _ => false

def HandleResult.startOf : HandleResult → Option Nat
  | .applied _ s _ _ _ _ => some s
  | _ => none

def HandleResult.appliedLast : HandleResult → List Nat
  | .applied _ _ l _ _ _ => [l]
  | _ => []

/-- The `store_maps` stage of the apply phase of `OSD::handle_osd_map`:
run the store loop from `start` through `last` into a fresh transaction. -/
def OSD.batch_store (n : OSDNode) (m : MOSDMap) (start last : Nat) :
    OSDNode × Txn × Bool :=
  OSD.store_go m n Txn.empty (List.range' start (last + 1 - start))

/-- The superblock-update-and-commit stage of the apply phase: update the
superblock, queue its write into the same transaction, commit. -/
def OSD.batch_commit (n : OSDNode) (m : MOSDMap) (start first last : Nat)
    (skip_maps : Bool) : OSDNode :=
  OSD.commitTxn
    (OSD.update_superblock_for_batch (OSD.batch_store n m start last).1
      first last skip_maps)
    { (OSD.batch_store n m start last).2.1 with
      sb_write := some
        (OSD.update_superblock_for_batch (OSD.batch_store n m start last).1
          first last skip_maps).superblock }

/-- The advance loop of `OSD::committed_osd_maps` over the committed
batch. -/
def OSD.batch_advance (n : OSDNode) (m : MOSDMap) (start first last : Nat)
    (skip_maps : Bool) : OSDNode × List Nat × Bool :=
  OSD.advance_loop (OSD.batch_commit n m start first last skip_maps)
    (List.range' start (last + 1 - start))

/-- The apply phase of `OSD::handle_osd_map`: run `store_maps` into a fresh
transaction, update and queue the superblock, commit, then run
`committed_osd_maps` (the advance loop and its tail). -/
def OSD.apply_batch (n : OSDNode) (m : MOSDMap) (start first last : Nat)
    (skip_maps : Bool) : HandleResult :=
  if (OSD.batch_store n m start last).2.2 = false then
    HandleResult.storeFailed (OSD.batch_store n m start last).1
  else if (OSD.batch_advance n m start first last skip_maps).2.2 = true then
    HandleResult.applied
      (OSD.committed_tail (OSD.batch_advance n m start first last skip_maps).1 m).1
      start last
      (OSD.batch_advance n m start first last skip_maps).2.1
      true
      (OSD.committed_tail (OSD.batch_advance n m start first last skip_maps).1 m).2
  else
    HandleResult.applied (OSD.batch_advance n m start first last skip_maps).1
      start last
      (OSD.batch_advance n m start first last skip_maps).2.1
      false OSDAction.noAction

/-- `OSD::handle_osd_map`: reject mismatched-identity or still-initializing
nodes and stale batches; on a gap after `newest_map`, subscribe (delta mode
if the authority still has `newest_map + 1`, full mode if the authority's
oldest is still below the batch's first) — but when the authority's oldest
is at or past the batch's first, accept the gap (`skip_maps`) and apply
from the batch's first epoch. -/
def OSD.handle_osd_map (n : OSDNode) (m : MOSDMap) : HandleResult :=
  if ¬ m.fsid = n.superblock.cluster_fsid then HandleResult.ignored n
  else if n.state = NodeState.initializing then HandleResult.ignored n
  else
    let first := m.get_first
    let last := m.get_last
    if last ≤ n.superblock.newest_map then HandleResult.ignored n
    else
      let start := n.superblock.newest_map + 1
      if start < first then
        if m.oldest_map ≤ start then
          HandleResult.subscribe n start false
        else if m.oldest_map < first then
          HandleResult.subscribe n (u64sub1 m.oldest_map) true
        else OSD.apply_batch n m first first last true
      else OSD.apply_batch n m start first last false

/-- A run over a sequence of incoming map batches, accumulating the
visible-epoch trace and the `last` epoch of every applied batch. -/
def runBatches : OSDNode → List MOSDMap → OSDNode × List Nat × List Nat
  | n, [] => (n, [], [])
  | n, msg :: ms =>
    let r := OSD.handle_osd_map n msg
    let rest := runBatches r.node ms
    (rest.1, r.trace ++ rest.2.1, r.appliedLast ++ rest.2.2)

/-- Events that drive the node-wide state between boots: an incoming map
batch, or a restart. -/
inductive OSDEvent where
  | mapMsg (m : MOSDMap)
  | restartEv
deriving DecidableEq

def stepEvent (n : OSDNode) : OSDEvent → OSDNode
  | .mapMsg m => (OSD.handle_osd_map n m).node
  | .restartEv => (OSD.restart n).1

def runEvents (n : OSDNode) (evs : List OSDEvent) : OSDNode :=
  evs.foldl stepEvent n

/-- `OSD::make_pg`: look up the pool in the given snapshot; when the pool
was deleted from that snapshot, fall back to the durable final-pool-info
store.  `none` is the exception of a failed `load_final_pool_info`. -/
def OSD.make_pg (n : OSDNode) (create_map : OSDMap) (pgid : PGId) : Option PG :=
  match OSDMap.get_pg_pool create_map pgid.pool with
  | some pi =>
    some { pgid := pgid, pool := pi,
           name := OSDMap.get_pool_name create_map pgid.pool,
           ec_profile :=
             if pi.erasure then
               OSDMap.get_erasure_code_profile create_map pi.erasure_code_profile
             else [],
           create_epoch := create_map.epoch, role := 0 }
  | none =>
    (alLookup n.final_pool_info pgid.pool).map (fun fi =>
      { pgid := pgid, pool := fi.info, name := fi.name,
        ec_profile := fi.ec_profile, create_epoch := create_map.epoch,
        role := 0 })

/-- The creation path of `OSD::handle_pg_create_info` after the by-mon
checks pass: build the PG, read the pool from the request's snapshot
(a null dereference — modelled as an error — if absent), compute the role,
create the collection and initialize the PG. -/
def OSD.create_path (n : OSDNode) (place : OSDMap → PGId → Placement)
    (startmap : OSDMap) (pgid : PGId) : CreateOutcome :=
  match OSD.make_pg n startmap pgid with
  | none => { pg := none, collection_created := false, error := true }
  | some pg =>
    match OSDMap.get_pg_pool startmap pgid.pool with
    | none => { pg := none, collection_created := false, error := true }
    | some pp =>
      let pl := place startmap pgid
      let role := if ¬ pp.replicated = true ∧ ¬ pl.role = pgid.shard then -1 else pl.role
      { pg := some { pg with role := role }, collection_created := true,
        error := false }

/-- `OSD::handle_pg_create_info`: resolve the request's snapshot; for a
request from the map authority (`by_mon`), validate against the *live*
current map — pool absent, or pool no longer carrying the CREATING flag,
silently drops the request (the intervening `ceph_assert` on the release is
modelled as an error outcome). -/
def OSD.handle_pg_create_info (n : OSDNode) (place : OSDMap → PGId → Placement)
    (info : PGCreateInfo) : CreateOutcome :=
  match OSD.get_map n info.epoch with
  | none => { pg := none, collection_created := false, error := true }
  | some (startmap, n1) =>
    if info.by_mon then
      match OSDMap.get_pg_pool n1.osdmap info.pgid.pool with
      | none => { pg := none, collection_created := false, error := false }
      | some pool =>
        if n1.osdmap.require_osd_release < nautilus then
          { pg := none, collection_created := false, error := true }
        else if pool.creating = false then
          { pg := none, collection_created := false, error := false }
        else OSD.create_path n1 place startmap info.pgid
    else OSD.create_path n1 place startmap info.pgid

/-- Arbitrary eviction from both bounded caches (keys kept according to
`P`/`Q`); durable state is untouched. -/
def evictCaches (n : OSDNode) (P Q : Nat → Bool) : OSDNode :=
  { n with
    osdmaps := n.osdmaps.filter (fun p => P p.1),
    map_bl_cache := n.map_bl_cache.filter (fun p => Q p.1) }

/-- Nat-coherence of the three map stores: every cached snapshot and
every stored blob is filed under its own epoch. -/
def CacheCoherent (n : OSDNode) : Prop :=
  (∀ p ∈ n.osdmaps, OSDMap.epoch p.2 = p.1) ∧
  (∀ p ∈ n.map_bl_cache, (decodeMap p.2).epoch = p.1) ∧
  (∀ p ∈ n.persisted, (decodeMap p.2).epoch = p.1)

/-- Nat-coherence of a pending transaction's map records. -/
def TxnCoherent (t : Txn) : Prop :=
  ∀ p ∈ t.map_writes, (decodeMap p.2).epoch = p.1

/-- The node-wide invariant: coherent stores, and the visible epoch never
ahead of the superblock's `newest_map`. -/
def Inv (n : OSDNode) : Prop :=
  CacheCoherent n ∧ n.osdmap.epoch ≤ n.superblock.newest_map

/-- Well-formedness of a map batch: every carried encoding decodes to the
epoch it is filed under. -/
def WFmsg (m : MOSDMap) : Prop :=
  (∀ p ∈ m.maps, (decodeMap p.2).epoch = p.1) ∧
  (∀ p ∈ m.incremental_maps, (decodeInc p.2).new_epoch = p.1)

instance (n : OSDNode) : Decidable (CacheCoherent n) := by
  unfold CacheCoherent; infer_instance

instance (t : Txn) : Decidable (TxnCoherent t) := by
  unfold TxnCoherent; infer_instance

instance (n : OSDNode) : Decidable (Inv n) := by
  unfold Inv; infer_instance

instance (m : MOSDMap) : Decidable (WFmsg m) := by
  unfold WFmsg; infer_instance

/-! Concrete states and messages used to exercise the model. -/

/-- A minimal full map at epoch 1. -/
def map1 : OSDMap :=
  { emptyOSDMap with epoch := 1, sortbitwise := true, require_osd_release := 14 }

/-- An incremental diff producing epoch 2 (marks osd 1 up at address 10). -/
def inc2 : Incremental :=
  { new_epoch := 2, encode_features := 1, new_up := [(1, 10)], new_down := [],
    new_pools := [], old_pools := [] }

/-- A minimal full map at epoch 5. -/
def map5 : OSDMap :=
  { emptyOSDMap with epoch := 5, sortbitwise := true, require_osd_release := 14 }

/-- A freshly booted node (osd 1, no maps yet) in `preboot`. -/
def freshNode : OSDNode :=
  { whoami := 1,
    superblock := { cluster_fsid := 7, oldest_map := 0, newest_map := 0,
                    current_epoch := 0, mounted := 0, clean_thru := 0 },
    state := NodeState.preboot,
    osdmap := emptyOSDMap,
    osdmaps := [(0, emptyOSDMap)],
    map_bl_cache := [], persisted := [], final_pool_info := [],
    up_epoch := 0, boot_epoch := 0, bind_epoch := 0,
    myaddrs := 10, cluster_myaddrs := 20,
    beacon_armed := false, heartbeat_armed := false, gate_epoch := 0,
    hb_require_authorizer := false }

/-- A contiguous two-epoch batch (full epoch 1, incremental epoch 2). -/
def batchMsg : MOSDMap :=
  { fsid := 7, oldest_map := 1, newest_map := 2,
    maps := [(1, Bytes.full map1)], incremental_maps := [(2, Bytes.inc inc2)],
    src_is_mon := true }

/-- A node that already holds maps up to epoch 2. -/
def nodeAt2 : OSDNode :=
  { freshNode with
    superblock := { cluster_fsid := 7, oldest_map := 1, newest_map := 2,
                    current_epoch := 2, mounted := 0, clean_thru := 0 },
    osdmap := { emptyOSDMap with epoch := 2 } }

/-- A batch starting at epoch 5 whose sender has `oldest_map = 5`: relative
to `nodeAt2` it leaves the gap 3..4 that no subscription can close. -/
def gapMsg : MOSDMap :=
  { fsid := 7, oldest_map := 5, newest_map := 5,
    maps := [(5, Bytes.full map5)], incremental_maps := [], src_is_mon := true }

/-- A batch starting at epoch 5 whose sender still has epoch 3 available. -/
def gapMsgDelta : MOSDMap :=
  { fsid := 7, oldest_map := 3, newest_map := 5,
    maps := [(5, Bytes.full map5)], incremental_maps := [], src_is_mon := true }

/-- A three-epoch batch from epoch 1 whose payload is missing epoch 2. -/
def holeMsg : MOSDMap :=
  { fsid := 7, oldest_map := 1, newest_map := 3,
    maps := [(1, Bytes.full map1),
             (3, Bytes.full { emptyOSDMap with epoch := 3 })],
    incremental_maps := [], src_is_mon := true }

/-- An incremental diff producing epoch 3. -/
def inc3 : Incremental :=
  { new_epoch := 3, encode_features := 1, new_up := [], new_down := [],
    new_pools := [], old_pools := [] }

/-- A three-epoch batch missing epoch 2 whose epoch 3 is incremental-only:
storing epoch 3 must load the missing epoch 2 and throws. -/
def holeIncMsg : MOSDMap :=
  { fsid := 7, oldest_map := 1, newest_map := 3,
    maps := [(1, Bytes.full map1)],
    incremental_maps := [(3, Bytes.inc inc3)], src_is_mon := true }

/-- An active, up node at epoch 5 whose recorded public address matches but
whose recorded cluster address (21) differs from the bound one (20). -/
def activeNode : OSDNode :=
  { freshNode with
    state := NodeState.active,
    superblock := { cluster_fsid := 7, oldest_map := 1, newest_map := 5,
                    current_epoch := 5, mounted := 0, clean_thru := 0 },
    osdmap := { emptyOSDMap with
                epoch := 5, up_osds := [1],
                osd_addrs := [(1, 10)], osd_cluster_addrs := [(1, 21)],
                exists_osds := [1], up_from := [(1, 3)],
                sortbitwise := true, require_osd_release := 14 },
    bind_epoch := 2 }

/-- A preboot node at epoch 3 that the map marks destroyed. -/
def destroyedNode : OSDNode :=
  { freshNode with
    superblock := { cluster_fsid := 7, oldest_map := 1, newest_map := 3,
                    current_epoch := 3, mounted := 0, clean_thru := 0 },
    osdmap := { emptyOSDMap with
                epoch := 3, destroyed_osds := [1],
                sortbitwise := true, require_osd_release := 14 } }

/-- A pool that is no longer marked as being created. -/
def poolDone : PoolInfo :=
  { creating := false, replicated := true, erasure := false,
    erasure_code_profile := "", pg_num := 8 }

/-- A pool definition as stored in the final-pool-info store. -/
def poolStored : PoolInfo :=
  { creating := false, replicated := true, erasure := false,
    erasure_code_profile := "", pg_num := 4 }

/-- A live map that carries pool 3 with the CREATING flag cleared. -/
def liveMapNoCreate : OSDMap :=
  { emptyOSDMap with
    epoch := 4, pools := [(3, poolDone)],
    pool_names := [(3, "p3")], sortbitwise := true, require_osd_release := 14 }

/-- A node whose live map is `liveMapNoCreate`. -/
def creatingNode : OSDNode :=
  { freshNode with
    state := NodeState.active,
    superblock := { cluster_fsid := 7, oldest_map := 1, newest_map := 4,
                    current_epoch := 4, mounted := 0, clean_thru := 0 },
    osdmap := liveMapNoCreate }

/-- A node holding a stored final definition for pool 9. -/
def finalPoolNode : OSDNode :=
  { freshNode with
    final_pool_info := [(9, { info := poolStored, name := "gone",
                              ec_profile := [] })] }

/-- A trivial placement function (all sets empty, role 0). -/
def trivialPlacement : OSDMap → PGId → Placement :=
  fun _ _ => { up := [], up_primary := -1, acting := [], acting_primary := -1,
               role := 0 }

/-- A node mid-way through storing `batchMsg`: the bytes of epoch 1 are in
the byte cache, so the incremental at epoch 2 can load its predecessor. -/
def midNode : OSDNode :=
  { freshNode with map_bl_cache := [(1, Bytes.full map1)] }

/-- The concrete result of the incremental store step at epoch 2. -/
def midOut : OSDNode × Txn :=
  (OSD.store_maps_step batchMsg (midNode, Txn.empty) 2).getD (midNode, Txn.empty)

/-! ### Association-list lemmas -/

theorem alLookup_filter {κ α : Type} [DecidableEq κ] (q : κ → Bool)
    (l : List (κ × α)) (k : κ) :
    alLookup (l.filter (fun p => q p.1)) k
      = if q k = true then alLookup l k else none := by
  induction l with
  | nil => cases hq : q k <;> simp [alLookup, hq]
  | cons p l ih =>
    by_cases hpk : p.1 = k
    · subst hpk
      cases hq : q p.1 <;> simp [List.filter_cons, hq, alLookup, ih]
    · cases hq : q p.1 <;> simp [List.filter_cons, hq, alLookup, hpk, ih]

theorem alLookup_alInsert_self {κ α : Type} [DecidableEq κ]
    (l : List (κ × α)) (k : κ) (v : α) :
    alLookup (alInsert l k v) k = some v := by
  simp [alInsert, alLookup]

theorem alLookup_alInsert_ne {κ α : Type} [DecidableEq κ]
    (l : List (κ × α)) (k k' : κ) (v : α) (h : ¬ k' = k) :
    alLookup (alInsert l k v) k' = alLookup l k' := by
  have hf := alLookup_filter (fun x => ! (x == k)) l k'
  simp only [alInsert, alLookup]
  rw [if_neg (fun heq => h heq.symm), hf, if_pos (by simp [h])]

theorem isSome_alLookup_alInsert {κ α : Type} [DecidableEq κ]
    {l : List (κ × α)} {k' : κ} (k : κ) (v : α)
    (h : (alLookup l k').isSome = true) :
    (alLookup (alInsert l k v) k').isSome = true := by
  by_cases hk : k' = k
  · subst hk; simp [alLookup_alInsert_self]
  · rw [alLookup_alInsert_ne _ _ _ _ hk]; exact h

theorem mem_of_alLookup_eq_some {κ α : Type} [DecidableEq κ]
    {l : List (κ × α)} {k : κ} {v : α} (h : alLookup l k = some v) :
    (k, v) ∈ l := by
  induction l with
  | nil => simp [alLookup] at h
  | cons p l ih =>
    by_cases hpk : p.1 = k
    · simp only [alLookup, if_pos hpk] at h
      rw [Option.some.injEq] at h
      subst hpk; subst h
      exact List.mem_cons_self _ _
    · simp only [alLookup, if_neg hpk] at h
      exact List.mem_cons_of_mem _ (ih h)

theorem mem_alInsert {κ α : Type} [DecidableEq κ]
    {l : List (κ × α)} {k : κ} {v : α} {p : κ × α} (h : p ∈ alInsert l k v) :
    p = (k, v) ∨ p ∈ l := by
  rcases List.mem_cons.mp h with h | h
  · exact Or.inl h
  · exact Or.inr (List.mem_of_mem_filter h)

theorem alLookup_foldl_alInsert_append_last {κ α : Type} [DecidableEq κ]
    (ps ws : List (κ × α)) (k : κ) (v : α) :
    alLookup ((ws ++ [(k, v)]).foldl (fun acc p => alInsert acc p.1 p.2) ps) k
      = some v := by
  rw [List.foldl_append]
  simp [alLookup_alInsert_self]

theorem alLookup_foldl_alInsert_of_not_mem {κ α : Type} [DecidableEq κ]
    (ws : List (κ × α)) (k : κ)
    (h : ∀ v, ¬ (k, v) ∈ ws) :
    ∀ ps : List (κ × α),
      alLookup (ws.foldl (fun acc p => alInsert acc p.1 p.2) ps) k
        = alLookup ps k := by
  induction ws with
  | nil => intro ps; rfl
  | cons q ws ih =>
    intro ps
    have hq : ¬ k = q.1 := by
      intro hk
      exact h q.2 (by rw [hk]; exact List.mem_cons_self _ _)
    rw [List.foldl_cons,
        ih (fun v hv => h v (List.mem_cons_of_mem _ hv)) _,
        alLookup_alInsert_ne _ _ _ _ hq]

theorem isSome_alLookup_foldl_alInsert {κ α : Type} [DecidableEq κ]
    (ws : List (κ × α)) {k : κ} :
    ∀ ps : List (κ × α), (alLookup ps k).isSome = true →
      (alLookup (ws.foldl (fun acc p => alInsert acc p.1 p.2) ps) k).isSome = true := by
  induction ws with
  | nil => intro ps h; exact h
  | cons q ws ih =>
    intro ps h
    exact ih _ (isSome_alLookup_alInsert q.1 q.2 h)

theorem isSome_alLookup_foldl_alInsert_of_mem {κ α : Type} [DecidableEq κ]
    {ws : List (κ × α)} {k : κ} {v : α} (h : (k, v) ∈ ws) :
    ∀ ps : List (κ × α),
      (alLookup (ws.foldl (fun acc p => alInsert acc p.1 p.2) ps) k).isSome = true := by
  induction ws with
  | nil => cases h
  | cons q ws ih =>
    intro ps
    rcases List.mem_cons.mp h with h1 | h1
    · rw [List.foldl_cons]
      apply isSome_alLookup_foldl_alInsert
      rw [← h1]
      simp [alLookup_alInsert_self]
    · exact ih h1 _

theorem mem_foldl_alInsert {κ α : Type} [DecidableEq κ]
    {ws : List (κ × α)} {p : κ × α} :
    ∀ ps : List (κ × α),
      p ∈ ws.foldl (fun acc q => alInsert acc q.1 q.2) ps → p ∈ ps ∨ p ∈ ws := by
  induction ws with
  | nil => intro ps h; exact Or.inl h
  | cons q ws ih =>
    intro ps h
    rcases ih _ h with h1 | h1
    · rcases mem_alInsert h1 with h2 | h2
      · exact Or.inr (by rw [h2]; simp)
      · exact Or.inl h2
    · exact Or.inr (List.mem_cons_of_mem _ h1)

/-! ### List arithmetic helpers -/

theorem chain_le_cons_take_range' :
    ∀ (k s e0 j : Nat), e0 ≤ s →
      List.Chain' (· ≤ ·) (e0 :: (List.range' s k).take j) := by
  intro k
  induction k with
  | zero => intro s e0 j _; simp
  | succ k ih =>
    intro s e0 j h
    cases j with
    | zero => simp
    | succ j =>
      rw [List.range'_succ, List.take_succ_cons, List.chain'_cons]
      exact ⟨h, ih (s + 1) s j (Nat.le_succ s)⟩

theorem getLastD_range' : ∀ (k s d : Nat),
    (List.range' s (k + 1)).getLastD d = s + k := by
  intro k
  induction k with
  | zero => intro s d; simp [List.range'_succ]
  | succ k ih =>
    intro s d
    rw [List.range'_succ, List.getLastD_cons, ih (s + 1) s]
    omega

theorem getLastD_append (l l' : List Nat) :
    ∀ d : Nat, (l ++ l').getLastD d = l'.getLastD (l.getLastD d) := by
  induction l with
  | nil => intro d; rfl
  | cons a l ih =>
    intro d
    rw [List.cons_append, List.getLastD_cons, List.getLastD_cons, ih a]

theorem foldl_min_mem (es : List Nat) :
    ∀ e : Nat, es.foldl Nat.min e ∈ e :: es := by
  induction es with
  | nil => intro e; simp
  | cons a es ih =>
    intro e
    rw [List.foldl_cons]
    rcases List.mem_cons.mp (ih (Nat.min e a)) with h | h
    · by_cases hle : e ≤ a
      · rw [h]; simp [Nat.min_def, hle]
      · rw [h]; simp [Nat.min_def, hle]
    · exact List.mem_cons_of_mem _ (List.mem_cons_of_mem _ h)

theorem le_foldl_max_self (es : List Nat) :
    ∀ b : Nat, b ≤ es.foldl Nat.max b := by
  induction es with
  | nil => intro b; exact Nat.le_refl b
  | cons a es ih =>
    intro b
    rw [List.foldl_cons]
    exact Nat.le_trans (Nat.le_max_left b a) (ih (Nat.max b a))

theorem le_foldl_max (es : List Nat) :
    ∀ (e x : Nat), x ∈ e :: es → x ≤ es.foldl Nat.max e := by
  induction es with
  | nil =>
    intro e x h
    rcases List.mem_cons.mp h with h | h
    · exact h.le
    · cases h
  | cons a es ih =>
    intro e x h
    rw [List.foldl_cons]
    rcases List.mem_cons.mp h with h | h
    · exact Nat.le_trans (h.le.trans (Nat.le_max_left e a)) (le_foldl_max_self es _)
    · rcases List.mem_cons.mp h with h1 | h1
      · exact Nat.le_trans (h1.le.trans (Nat.le_max_right e a)) (le_foldl_max_self es _)
      · exact ih (Nat.max e a) x (List.mem_cons_of_mem _ h1)

theorem MOSDMap.get_first_le_get_last (m : MOSDMap) (h : ¬ m.keyEpochs = []) :
    m.get_first ≤ m.get_last := by
  unfold MOSDMap.get_first MOSDMap.get_last
  cases hk : m.keyEpochs with
  | nil => exact absurd hk h
  | cons e es => exact le_foldl_max es e _ (foldl_min_mem es e)

theorem MOSDMap.get_first_pos_ne_nil (m : MOSDMap) (h : 0 < m.get_first) :
    ¬ m.keyEpochs = [] := by
  intro hk
  unfold MOSDMap.get_first at h
  rw [hk] at h
  exact Nat.lt_irrefl 0 h

/-! ### Shape lemmas: which fields each operation can touch -/

theorem store_maps_step_shape {m : MOSDMap} {n : OSDNode} {t : Txn} {e : Nat}
    {n1 : OSDNode} {t1 : Txn}
    (h : OSD.store_maps_step m (n, t) e = some (n1, t1)) :
    (∃ om bc, n1 = { n with osdmaps := om, map_bl_cache := bc }) ∧
    (∃ ws, t1 = { t with map_writes := t.map_writes ++ ws }) := by
  unfold OSD.store_maps_step at h
  split at h
  case _ bl hbl =>
    simp only [OSD.store_map_bl, Option.some.injEq, Prod.mk.injEq] at h
    obtain ⟨hn, ht⟩ := h
    exact ⟨⟨_, _, hn.symm⟩, ⟨_, ht.symm⟩⟩
  case _ hbl =>
    split at h
    case _ bl hinc =>
      rcases Option.map_eq_some'.mp h with ⟨prev, hload, hpair⟩
      simp only [OSD.store_map_bl, Prod.mk.injEq] at hpair
      obtain ⟨hn, ht⟩ := hpair
      exact ⟨⟨_, _, hn.symm⟩, ⟨_, ht.symm⟩⟩
    case _ hinc =>
      simp only [Option.some.injEq, Prod.mk.injEq] at h
      obtain ⟨hn, ht⟩ := h
      exact ⟨⟨n.osdmaps, n.map_bl_cache, hn.symm⟩, ⟨[], by rw [← ht]; simp⟩⟩

theorem store_go_shape {m : MOSDMap} :
    ∀ (es : List Nat) (n : OSDNode) (t : Txn),
      (∃ om bc, (OSD.store_go m n t es).1 = { n with osdmaps := om, map_bl_cache := bc }) ∧
      (∃ ws, (OSD.store_go m n t es).2.1 = { t with map_writes := t.map_writes ++ ws }) := by
  intro es
  induction es with
  | nil =>
    intro n t
    exact ⟨⟨n.osdmaps, n.map_bl_cache, rfl⟩, ⟨[], by rw [List.append_nil]; rfl⟩⟩
  | cons e es ih =>
    intro n t
    cases hstep : OSD.store_maps_step m (n, t) e with
    | none =>
      simp only [OSD.store_go, hstep]
      exact ⟨⟨n.osdmaps, n.map_bl_cache, rfl⟩, ⟨[], by rw [List.append_nil]⟩⟩
    | some p =>
      obtain ⟨n1, t1⟩ := p
      obtain ⟨⟨om1, bc1, hn1⟩, ⟨ws1, ht1⟩⟩ := store_maps_step_shape hstep
      have hgo : OSD.store_go m n t (e :: es) = OSD.store_go m n1 t1 es := by
        simp only [OSD.store_go, hstep]
      rw [hgo]
      obtain ⟨⟨om2, bc2, hn2⟩, ⟨ws2, ht2⟩⟩ := ih n1 t1
      constructor
      · exact ⟨om2, bc2, by rw [hn2, hn1]⟩
      · exact ⟨ws1 ++ ws2, by rw [ht2, ht1]; simp⟩

theorem get_map_shape {n : OSDNode} {cur : Nat} {p : OSDMap × OSDNode}
    (h : OSD.get_map n cur = some p) :
    ∃ om, p.2 = { n with osdmaps := om } := by
  unfold OSD.get_map at h
  split at h
  case _ o hfound =>
    rw [Option.some.injEq] at h
    exact ⟨n.osdmaps, by rw [← h]⟩
  case _ hfound =>
    rw [Option.map_eq_some'] at h
    rcases h with ⟨o, hload, hpair⟩
    exact ⟨alInsert n.osdmaps cur o, by rw [← hpair]⟩

theorem advance_step_shape {n : OSDNode} {cur : Nat} {n1 : OSDNode}
    (h : OSD.advance_step n cur = some n1) :
    ∃ om o ue be, n1 = { n with osdmaps := om, osdmap := o,
                                up_epoch := ue, boot_epoch := be } := by
  unfold OSD.advance_step at h
  rw [Option.map_eq_some'] at h
  rcases h with ⟨p, hget, hf⟩
  rcases get_map_shape hget with ⟨om, hom⟩
  split at hf
  · split at hf
    · exact ⟨om, p.1, p.1.epoch, p.1.epoch, by rw [← hf, hom]⟩
    · exact ⟨om, p.1, p.1.epoch, n.boot_epoch, by rw [← hf, hom]⟩
  · exact ⟨om, p.1, n.up_epoch, n.boot_epoch, by rw [← hf, hom]⟩

theorem advance_loop_shape :
    ∀ (es : List Nat) (n : OSDNode),
      ∃ om o ue be,
        (OSD.advance_loop n es).1
          = { n with osdmaps := om, osdmap := o, up_epoch := ue, boot_epoch := be } := by
  intro es
  induction es with
  | nil =>
    intro n
    exact ⟨n.osdmaps, n.osdmap, n.up_epoch, n.boot_epoch, rfl⟩
  | cons e es ih =>
    intro n
    cases hstep : OSD.advance_step n e with
    | none =>
      simp only [OSD.advance_loop, hstep]
      exact ⟨n.osdmaps, n.osdmap, n.up_epoch, n.boot_epoch, rfl⟩
    | some n1 =>
      obtain ⟨om1, o1, ue1, be1, hn1⟩ := advance_step_shape hstep
      have hgo : (OSD.advance_loop n (e :: es)).1 = (OSD.advance_loop n1 es).1 := by
        simp only [OSD.advance_loop, hstep]
      rw [hgo]
      obtain ⟨om2, o2, ue2, be2, hn2⟩ := ih n1
      exact ⟨om2, o2, ue2, be2, by rw [hn2, hn1]⟩

theorem tail_prestage_core (n0 : OSDNode) :
    (OSD.tail_prestage n0).osdmap = n0.osdmap ∧
    (OSD.tail_prestage n0).osdmaps = n0.osdmaps ∧
    (OSD.tail_prestage n0).map_bl_cache = n0.map_bl_cache ∧
    (OSD.tail_prestage n0).persisted = n0.persisted ∧
    (OSD.tail_prestage n0).whoami = n0.whoami ∧
    (OSD.tail_prestage n0).superblock = n0.superblock ∧
    (OSD.tail_prestage n0).final_pool_info = n0.final_pool_info ∧
    (OSD.tail_prestage n0).myaddrs = n0.myaddrs ∧
    (OSD.tail_prestage n0).cluster_myaddrs = n0.cluster_myaddrs ∧
    (OSD.tail_prestage n0).up_epoch = n0.up_epoch ∧
    (OSD.tail_prestage n0).boot_epoch = n0.boot_epoch ∧
    (OSD.tail_prestage n0).bind_epoch = n0.bind_epoch ∧
    (¬ n0.state = NodeState.booting → (OSD.tail_prestage n0).state = n0.state) := by
  unfold OSD.tail_prestage OSD.consume_map OSD.check_osdmap_features
    OSD.activation_check
  split_ifs <;> simp_all

theorem preboot_node_shape (q : OSDNode) (oldest newest : Nat) :
    (OSD._preboot q oldest newest).1 = q ∨
    (OSD._preboot q oldest newest).1 = { q with state := NodeState.booting } := by
  unfold OSD._preboot OSD.subscribe_latest
  split_ifs <;> simp

theorem lifecycle_dispatch_shape (q : OSDNode) (m : MOSDMap) :
    (OSD.lifecycle_dispatch q m).1 = q ∨
    (OSD.lifecycle_dispatch q m).1 = OSD.shutdown q ∨
    (OSD.lifecycle_dispatch q m).1 = (OSD.restart q).1 ∨
    (OSD.lifecycle_dispatch q m).1 = { q with state := NodeState.booting } ∨
    (OSD.lifecycle_dispatch q m).1 = { q with state := NodeState.preboot } := by
  unfold OSD.lifecycle_dispatch
  split_ifs with h1 h2 h3 h4 h5
  · exact Or.inr (Or.inl rfl)
  · exact Or.inr (Or.inr (Or.inl rfl))
  · exact Or.inl rfl
  · rcases preboot_node_shape q m.oldest_map m.newest_map with h | h
    · exact Or.inl h
    · exact Or.inr (Or.inr (Or.inr (Or.inl h)))
  · exact Or.inr (Or.inr (Or.inr (Or.inr rfl)))
  · exact Or.inl rfl

theorem lifecycle_dispatch_core (q : OSDNode) (m : MOSDMap) :
    (OSD.lifecycle_dispatch q m).1.osdmap = q.osdmap ∧
    (OSD.lifecycle_dispatch q m).1.osdmaps = q.osdmaps ∧
    (OSD.lifecycle_dispatch q m).1.map_bl_cache = q.map_bl_cache ∧
    (OSD.lifecycle_dispatch q m).1.persisted = q.persisted ∧
    (OSD.lifecycle_dispatch q m).1.whoami = q.whoami ∧
    (OSD.lifecycle_dispatch q m).1.superblock.newest_map = q.superblock.newest_map ∧
    (OSD.lifecycle_dispatch q m).1.superblock.oldest_map = q.superblock.oldest_map ∧
    (OSD.lifecycle_dispatch q m).1.superblock.current_epoch = q.superblock.current_epoch ∧
    (OSD.lifecycle_dispatch q m).1.superblock.cluster_fsid = q.superblock.cluster_fsid ∧
    (OSD.lifecycle_dispatch q m).1.final_pool_info = q.final_pool_info ∧
    (OSD.lifecycle_dispatch q m).1.myaddrs = q.myaddrs ∧
    (OSD.lifecycle_dispatch q m).1.cluster_myaddrs = q.cluster_myaddrs := by
  rcases lifecycle_dispatch_shape q m with h | h | h | h | h <;> rw [h] <;>
    simp [OSD.shutdown, OSD.restart, OSD.start_boot]

theorem committed_tail_core (n0 : OSDNode) (m : MOSDMap) :
    (OSD.committed_tail n0 m).1.osdmap = n0.osdmap ∧
    (OSD.committed_tail n0 m).1.osdmaps = n0.osdmaps ∧
    (OSD.committed_tail n0 m).1.map_bl_cache = n0.map_bl_cache ∧
    (OSD.committed_tail n0 m).1.persisted = n0.persisted ∧
    (OSD.committed_tail n0 m).1.whoami = n0.whoami ∧
    (OSD.committed_tail n0 m).1.superblock.newest_map = n0.superblock.newest_map ∧
    (OSD.committed_tail n0 m).1.superblock.oldest_map = n0.superblock.oldest_map ∧
    (OSD.committed_tail n0 m).1.superblock.current_epoch = n0.superblock.current_epoch ∧
    (OSD.committed_tail n0 m).1.superblock.cluster_fsid = n0.superblock.cluster_fsid ∧
    (OSD.committed_tail n0 m).1.final_pool_info = n0.final_pool_info ∧
    (OSD.committed_tail n0 m).1.myaddrs = n0.myaddrs ∧
    (OSD.committed_tail n0 m).1.cluster_myaddrs = n0.cluster_myaddrs := by
  obtain ⟨p1, p2, p3, p4, p5, p6, p7, p8, p9, p10, p11, p12, p13⟩ :=
    tail_prestage_core n0
  obtain ⟨d1, d2, d3, d4, d5, d6, d7, d8, d9, d10, d11, d12⟩ :=
    lifecycle_dispatch_core (OSD.tail_prestage n0) m
  unfold OSD.committed_tail
  exact ⟨d1.trans p1, d2.trans p2, d3.trans p3, d4.trans p4, d5.trans p5,
    d6.trans (by rw [p6]), d7.trans (by rw [p6]), d8.trans (by rw [p6]),
    d9.trans (by rw [p6]), d10.trans p7, d11.trans p8, d12.trans p9⟩

theorem lifecycle_dispatch_upboot (q : OSDNode) (m : MOSDMap)
    (h : q.up_epoch = 0) :
    (OSD.lifecycle_dispatch q m).1.up_epoch = 0 ∧
    (OSD.lifecycle_dispatch q m).1.boot_epoch = q.boot_epoch := by
  rcases lifecycle_dispatch_shape q m with hs | hs | hs | hs | hs <;> rw [hs] <;>
    simp [OSD.shutdown, OSD.restart, OSD.start_boot, h]

theorem committed_tail_upboot (n0 : OSDNode) (m : MOSDMap)
    (h : n0.up_epoch = 0) :
    (OSD.committed_tail n0 m).1.up_epoch = 0 ∧
    (OSD.committed_tail n0 m).1.boot_epoch = n0.boot_epoch := by
  obtain ⟨p1, p2, p3, p4, p5, p6, p7, p8, p9, p10, p11, p12, p13⟩ :=
    tail_prestage_core n0
  obtain ⟨u1, u2⟩ :=
    lifecycle_dispatch_upboot (OSD.tail_prestage n0) m (by rw [p10]; exact h)
  unfold OSD.committed_tail
  exact ⟨u1, u2.trans p11⟩

/-! ### Coherence lemmas -/

theorem apply_incremental_epoch (prev : OSDMap) (inc : Incremental) :
    (OSDMap.apply_incremental prev inc).epoch = inc.new_epoch := rfl

theorem load_map_epoch {n : OSDNode} {e : Nat} {o : OSDMap}
    (hcoh : CacheCoherent n) (h : OSD.load_map n e = some o) : o.epoch = e := by
  unfold OSD.load_map at h
  split at h
  case _ hpos =>
    rw [Option.map_eq_some'] at h
    rcases h with ⟨bl, hbl, hdec⟩
    unfold OSD.load_map_bl at hbl
    split at hbl
    case _ bl' hfound =>
      rw [Option.some.injEq] at hbl
      subst hbl
      rw [← hdec]
      exact hcoh.2.1 _ (mem_of_alLookup_eq_some hfound)
    case _ hfound =>
      rw [← hdec]
      exact hcoh.2.2 _ (mem_of_alLookup_eq_some hbl)
  case _ hpos =>
    rw [Option.some.injEq] at h
    rw [← h, Nat.eq_zero_of_not_pos hpos]
    rfl

theorem get_map_epoch {n : OSDNode} {e : Nat} {p : OSDMap × OSDNode}
    (hcoh : CacheCoherent n) (h : OSD.get_map n e = some p) : p.1.epoch = e := by
  unfold OSD.get_map at h
  split at h
  case _ o hfound =>
    rw [Option.some.injEq] at h
    rw [← h]
    exact hcoh.1 _ (mem_of_alLookup_eq_some hfound)
  case _ hfound =>
    rw [Option.map_eq_some'] at h
    rcases h with ⟨o, hload, hp⟩
    rw [← hp]
    exact load_map_epoch hcoh hload

theorem get_map_coherent {n : OSDNode} {e : Nat} {p : OSDMap × OSDNode}
    (hcoh : CacheCoherent n) (h : OSD.get_map n e = some p) :
    CacheCoherent p.2 := by
  unfold OSD.get_map at h
  split at h
  case _ o hfound =>
    rw [Option.some.injEq] at h
    rw [← h]
    exact hcoh
  case _ hfound =>
    rw [Option.map_eq_some'] at h
    rcases h with ⟨o, hload, hp⟩
    have hoe : o.epoch = e := load_map_epoch hcoh hload
    rw [← hp]
    refine ⟨?_, hcoh.2.1, hcoh.2.2⟩
    intro q hq
    rcases mem_alInsert hq with h1 | h1
    · rw [h1]; exact hoe
    · exact hcoh.1 q h1

theorem store_maps_step_coherent {m : MOSDMap} {n : OSDNode} {t : Txn}
    {e : Nat} {n1 : OSDNode} {t1 : Txn}
    (hwf : WFmsg m) (hn : CacheCoherent n) (ht : TxnCoherent t)
    (h : OSD.store_maps_step m (n, t) e = some (n1, t1)) :
    CacheCoherent n1 ∧ TxnCoherent t1 := by
  unfold OSD.store_maps_step at h
  split at h
  case _ bl hbl =>
    have hdec : (decodeMap bl).epoch = e := hwf.1 _ (mem_of_alLookup_eq_some hbl)
    simp only [OSD.store_map_bl, Option.some.injEq, Prod.mk.injEq] at h
    obtain ⟨h1, h2⟩ := h
    constructor
    · rw [← h1]
      refine ⟨?_, ?_, hn.2.2⟩
      · intro q hq
        rcases mem_alInsert hq with hh | hh
        · rw [hh]; exact hdec
        · exact hn.1 q hh
      · intro q hq
        rcases mem_alInsert hq with hh | hh
        · rw [hh]; exact hdec
        · exact hn.2.1 q hh
    · rw [← h2]
      intro q hq
      rcases List.mem_append.mp hq with hh | hh
      · exact ht q hh
      · rw [List.mem_singleton.mp hh]; exact hdec
  case _ hbl =>
    split at h
    case _ bl hinc =>
      rw [Option.map_eq_some'] at h
      rcases h with ⟨prev, hload, hpair⟩
      have hince : (decodeInc bl).new_epoch = e :=
        hwf.2 _ (mem_of_alLookup_eq_some hinc)
      have hfull :
          (decodeMap (OSDMap.encodeMap
            (OSDMap.apply_incremental prev (decodeInc bl))
            (Nat.lor (decodeInc bl).encode_features CEPH_FEATURE_RESERVED))).epoch
            = e := by
        rw [show ∀ (o : OSDMap) (f : Nat), decodeMap (OSDMap.encodeMap o f) = o
              from fun _ _ => rfl]
        rw [apply_incremental_epoch]
        exact hince
      simp only [OSD.store_map_bl, Prod.mk.injEq] at hpair
      obtain ⟨h1, h2⟩ := hpair
      constructor
      · rw [← h1]
        refine ⟨?_, ?_, hn.2.2⟩
        · intro q hq
          rcases mem_alInsert hq with hh | hh
          · rw [hh]
            rw [apply_incremental_epoch]
            exact hince
          · exact hn.1 q hh
        · intro q hq
          rcases mem_alInsert hq with hh | hh
          · rw [hh]; exact hfull
          · exact hn.2.1 q hh
      · rw [← h2]
        intro q hq
        rcases List.mem_append.mp hq with hh | hh
        · exact ht q hh
        · rw [List.mem_singleton.mp hh]; exact hfull
    case _ hinc =>
      rw [Option.some.injEq, Prod.mk.injEq] at h
      obtain ⟨h1, h2⟩ := h
      rw [← h1, ← h2]
      exact ⟨hn, ht⟩

theorem store_go_coherent {m : MOSDMap} (hwf : WFmsg m) :
    ∀ (es : List Nat) (n : OSDNode) (t : Txn),
      CacheCoherent n → TxnCoherent t →
      CacheCoherent (OSD.store_go m n t es).1 ∧
      TxnCoherent (OSD.store_go m n t es).2.1 := by
  intro es
  induction es with
  | nil => intro n t hn ht; exact ⟨hn, ht⟩
  | cons e es ih =>
    intro n t hn ht
    cases hstep : OSD.store_maps_step m (n, t) e with
    | none => simp only [OSD.store_go, hstep]; exact ⟨hn, ht⟩
    | some p =>
      obtain ⟨n1, t1⟩ := p
      obtain ⟨hc1, hc2⟩ := store_maps_step_coherent hwf hn ht hstep
      simp only [OSD.store_go, hstep]
      exact ih n1 t1 hc1 hc2

theorem commitTxn_coherent {n : OSDNode} {t : Txn}
    (hn : CacheCoherent n) (ht : TxnCoherent t) :
    CacheCoherent (OSD.commitTxn n t) := by
  refine ⟨hn.1, hn.2.1, ?_⟩
  intro p hp
  rcases mem_foldl_alInsert _ hp with h | h
  · exact hn.2.2 p h
  · exact ht p h

theorem update_superblock_shape (n : OSDNode) (first last : Nat)
    (skip_maps : Bool) :
    ∃ sb, OSD.update_superblock_for_batch n first last skip_maps
            = { n with superblock := sb } :=
  ⟨_, rfl⟩

theorem update_superblock_coherent (n : OSDNode) (first last : Nat)
    (skip_maps : Bool) (h : CacheCoherent n) :
    CacheCoherent (OSD.update_superblock_for_batch n first last skip_maps) := by
  rcases update_superblock_shape n first last skip_maps with ⟨sb, hsb⟩
  rw [hsb]
  unfold CacheCoherent at h ⊢
  simpa using h

/-! ### Advance-loop lemmas -/

theorem advance_step_props {n : OSDNode} {cur : Nat} {n1 : OSDNode}
    (hcoh : CacheCoherent n) (h : OSD.advance_step n cur = some n1) :
    CacheCoherent n1 ∧ n1.osdmap.epoch = cur := by
  unfold OSD.advance_step at h
  rw [Option.map_eq_some'] at h
  rcases h with ⟨p, hget, hf⟩
  have hep := get_map_epoch hcoh hget
  have hc2 := get_map_coherent hcoh hget
  split at hf
  · split at hf
    · rw [← hf]
      exact ⟨⟨hc2.1, hc2.2.1, hc2.2.2⟩, hep⟩
    · rw [← hf]
      exact ⟨⟨hc2.1, hc2.2.1, hc2.2.2⟩, hep⟩
  · rw [← hf]
    exact ⟨⟨hc2.1, hc2.2.1, hc2.2.2⟩, hep⟩

theorem advance_loop_trace :
    ∀ (es : List Nat) (n : OSDNode), CacheCoherent n →
      CacheCoherent (OSD.advance_loop n es).1 ∧
      (OSD.advance_loop n es).2.1
        = es.take (OSD.advance_loop n es).2.1.length ∧
      (OSD.advance_loop n es).1.osdmap.epoch
        = (OSD.advance_loop n es).2.1.getLastD n.osdmap.epoch ∧
      ((OSD.advance_loop n es).2.2 = true → (OSD.advance_loop n es).2.1 = es) := by
  intro es
  induction es with
  | nil =>
    intro n h
    exact ⟨h, rfl, rfl, fun _ => rfl⟩
  | cons e es ih =>
    intro n h
    cases hstep : OSD.advance_step n e with
    | none =>
      simp only [OSD.advance_loop, hstep]
      exact ⟨h, rfl, rfl, by simp⟩
    | some n1 =>
      obtain ⟨hc1, he1⟩ := advance_step_props h hstep
      obtain ⟨ih1, ih2, ih3, ih4⟩ := ih n1 hc1
      simp only [OSD.advance_loop, hstep]
      refine ⟨ih1, ?_, ?_, ?_⟩
      · rw [List.length_cons, List.take_succ_cons, he1]
        exact congrArg _ ih2
      · rw [List.getLastD_cons, ih3, he1]
      · intro hok
        rw [he1, ih4 hok]

theorem advance_step_hit {n : OSDNode} {e : Nat} {o : OSDMap}
    (hfound : alLookup n.osdmaps e = some o) :
    ∃ n1, OSD.advance_step n e = some n1 ∧ n1.osdmaps = n.osdmaps := by
  unfold OSD.advance_step OSD.get_map
  rw [hfound]
  simp only [Option.map_some', Option.some.injEq]
  split_ifs <;> exact ⟨_, rfl, rfl⟩

theorem advance_loop_all_cached :
    ∀ (es : List Nat) (n : OSDNode),
      (∀ e ∈ es, (alLookup n.osdmaps e).isSome = true) →
      (OSD.advance_loop n es).2.2 = true := by
  intro es
  induction es with
  | nil => intro n _; rfl
  | cons e es ih =>
    intro n hall
    have he := hall e (List.mem_cons_self _ _)
    rcases Option.isSome_iff_exists.mp he with ⟨o, hfound⟩
    rcases advance_step_hit hfound with ⟨n1, hstep, hsame⟩
    simp only [OSD.advance_loop, hstep]
    exact ih n1 (fun e' he' => by
      rw [hsame]; exact hall e' (List.mem_cons_of_mem _ he'))

/-! ### Store-loop completeness -/

theorem load_map_isSome_of_blcache {n : OSDNode} {e : Nat}
    (he : 0 < e) (h : (alLookup n.map_bl_cache e).isSome = true) :
    (OSD.load_map n e).isSome = true := by
  unfold OSD.load_map OSD.load_map_bl
  rw [if_pos he]
  rcases Option.isSome_iff_exists.mp h with ⟨bl, hbl⟩
  rw [hbl]
  rfl

theorem store_maps_step_isSome {m : MOSDMap} {n : OSDNode} {t : Txn} {e : Nat}
    (hhas : (alLookup m.maps e).isSome = true ∨
      ((alLookup m.incremental_maps e).isSome = true ∧
        (OSD.load_map n (e - 1)).isSome = true)) :
    (OSD.store_maps_step m (n, t) e).isSome = true := by
  unfold OSD.store_maps_step
  rcases hhas with h | ⟨hinc, hload⟩
  · rcases Option.isSome_iff_exists.mp h with ⟨bl, hbl⟩
    rw [hbl]
    rfl
  · cases hf : alLookup m.maps e with
    | some bl => rfl
    | none =>
      rcases Option.isSome_iff_exists.mp hinc with ⟨bl, hbl⟩
      rw [hbl]
      simp only [Option.isSome_map']
      exact hload

theorem store_maps_step_caches {m : MOSDMap} {n : OSDNode} {t : Txn} {e : Nat}
    {n1 : OSDNode} {t1 : Txn}
    (h : OSD.store_maps_step m (n, t) e = some (n1, t1)) :
    (∀ k, (alLookup n.osdmaps k).isSome = true →
      (alLookup n1.osdmaps k).isSome = true) ∧
    (∀ k, (alLookup n.map_bl_cache k).isSome = true →
      (alLookup n1.map_bl_cache k).isSome = true) ∧
    ((alLookup m.maps e).isSome = true ∨ (alLookup m.incremental_maps e).isSome = true →
      (alLookup n1.osdmaps e).isSome = true ∧
      (alLookup n1.map_bl_cache e).isSome = true) := by
  unfold OSD.store_maps_step at h
  split at h
  case _ bl hbl =>
    simp only [OSD.store_map_bl, Option.some.injEq, Prod.mk.injEq] at h
    obtain ⟨h1, h2⟩ := h
    rw [← h1]
    refine ⟨?_, ?_, ?_⟩
    · intro k hk; exact isSome_alLookup_alInsert _ _ hk
    · intro k hk; exact isSome_alLookup_alInsert _ _ hk
    · intro _
      constructor
      · rw [alLookup_alInsert_self]; rfl
      · rw [alLookup_alInsert_self]; rfl
  case _ hbl =>
    split at h
    case _ bl hinc =>
      rw [Option.map_eq_some'] at h
      rcases h with ⟨prev, hload, hpair⟩
      simp only [OSD.store_map_bl, Prod.mk.injEq] at hpair
      obtain ⟨h1, h2⟩ := hpair
      rw [← h1]
      refine ⟨?_, ?_, ?_⟩
      · intro k hk; exact isSome_alLookup_alInsert _ _ hk
      · intro k hk; exact isSome_alLookup_alInsert _ _ hk
      · intro _
        constructor
        · rw [alLookup_alInsert_self]; rfl
        · rw [alLookup_alInsert_self]; rfl
    case _ hinc =>
      rw [Option.some.injEq, Prod.mk.injEq] at h
      obtain ⟨h1, h2⟩ := h
      rw [← h1]
      refine ⟨fun k hk => hk, fun k hk => hk, ?_⟩
      intro hor
      rcases hor with hh | hh
      · rw [hbl] at hh; cases hh
      · rw [hinc] at hh; cases hh

theorem store_go_osdmaps_mono {m : MOSDMap} :
    ∀ (es : List Nat) (n : OSDNode) (t : Txn) (k : Nat),
      (alLookup n.osdmaps k).isSome = true →
      (alLookup (OSD.store_go m n t es).1.osdmaps k).isSome = true := by
  intro es
  induction es with
  | nil => intro n t k hk; exact hk
  | cons e es ih =>
    intro n t k hk
    cases hstep : OSD.store_maps_step m (n, t) e with
    | none => simp only [OSD.store_go, hstep]; exact hk
    | some p =>
      obtain ⟨n1, t1⟩ := p
      obtain ⟨hmono, _, _⟩ := store_maps_step_caches hstep
      simp only [OSD.store_go, hstep]
      exact ih n1 t1 k (hmono k hk)

theorem store_go_complete {m : MOSDMap} :
    ∀ (k a : Nat) (n : OSDNode) (t : Txn),
      1 ≤ a →
      (∀ e, a ≤ e → e < a + k →
        (alLookup m.maps e).isSome = true ∨
        (alLookup m.incremental_maps e).isSome = true) →
      ((alLookup m.maps a).isSome = true ∨
        (OSD.load_map n (a - 1)).isSome = true) →
      (OSD.store_go m n t (List.range' a k)).2.2 = true ∧
      (∀ e, a ≤ e → e < a + k →
        (alLookup (OSD.store_go m n t (List.range' a k)).1.osdmaps e).isSome = true) := by
  intro k
  induction k with
  | zero =>
    intro a n t _ _ _
    exact ⟨rfl, fun e he1 he2 => absurd he2 (by omega)⟩
  | succ k ih =>
    intro a n t ha hav hstart
    have hava := hav a (Nat.le_refl a) (by omega)
    have hhas : (alLookup m.maps a).isSome = true ∨
        ((alLookup m.incremental_maps a).isSome = true ∧
          (OSD.load_map n (a - 1)).isSome = true) := by
      rcases hava with hh | hh
      · exact Or.inl hh
      · rcases hstart with hh' | hh'
        · exact Or.inl hh'
        · exact Or.inr ⟨hh, hh'⟩
    have hsome := store_maps_step_isSome (t := t) hhas
    rcases Option.isSome_iff_exists.mp hsome with ⟨p, hstep⟩
    obtain ⟨n1, t1⟩ := p
    obtain ⟨hmono_o, hmono_b, hnew⟩ := store_maps_step_caches hstep
    have hnewa := hnew hava
    have hgo : OSD.store_go m n t (List.range' a (k + 1))
        = OSD.store_go m n1 t1 (List.range' (a + 1) k) := by
      rw [List.range'_succ]
      simp only [OSD.store_go, hstep]
    rw [hgo]
    have hstart' : (alLookup m.maps (a + 1)).isSome = true ∨
        (OSD.load_map n1 (a + 1 - 1)).isSome = true := by
      right
      have hload1 : (OSD.load_map n1 a).isSome = true :=
        load_map_isSome_of_blcache ha hnewa.2
      have hred : a + 1 - 1 = a := rfl
      rw [hred]
      exact hload1
    obtain ⟨hok, hpop⟩ := ih (a + 1) n1 t1 (by omega)
      (fun e h1 h2 => hav e (by omega) (by omega)) hstart'
    refine ⟨hok, ?_⟩
    intro e he1 he2
    by_cases he : a + 1 ≤ e
    · exact hpop e he (by omega)
    · have heq : e = a := by omega
      subst heq
      exact store_go_osdmaps_mono _ n1 t1 e hnewa.1

/-! ### More list helpers -/

theorem getLastD_mem (l : List Nat) (d : Nat) (h : ¬ l = []) :
    l.getLastD d ∈ l := by
  induction l generalizing d with
  | nil => exact absurd rfl h
  | cons a l ih =>
    rw [List.getLastD_cons]
    by_cases hl : l = []
    · subst hl; simp
    · exact List.mem_cons_of_mem _ (ih a hl)

theorem mem_range'_bounds :
    ∀ {k s x : Nat}, x ∈ List.range' s k → s ≤ x ∧ x < s + k := by
  intro k
  induction k with
  | zero => intro s x h; cases h
  | succ k ih =>
    intro s x h
    rw [List.range'_succ] at h
    rcases List.mem_cons.mp h with h | h
    · omega
    · have := ih h; omega

theorem CacheCoherent_of_fields {a b : OSDNode}
    (h1 : a.osdmaps = b.osdmaps) (h2 : a.map_bl_cache = b.map_bl_cache)
    (h3 : a.persisted = b.persisted) (hb : CacheCoherent b) : CacheCoherent a := by
  unfold CacheCoherent at hb ⊢
  rw [h1, h2, h3]
  exact hb

/-! ### Batch-stage lemmas -/

theorem update_superblock_fields (n : OSDNode) (first last : Nat)
    (skip_maps : Bool) :
    (OSD.update_superblock_for_batch n first last skip_maps).superblock.newest_map
      = last ∧
    (OSD.update_superblock_for_batch n first last skip_maps).superblock.current_epoch
      = last ∧
    (OSD.update_superblock_for_batch n first last skip_maps).superblock.cluster_fsid
      = n.superblock.cluster_fsid := by
  unfold OSD.update_superblock_for_batch
  dsimp only
  split_ifs <;> simp

theorem batch_store_shape (n : OSDNode) (m : MOSDMap) (start last : Nat) :
    ∃ om bc, (OSD.batch_store n m start last).1
        = { n with osdmaps := om, map_bl_cache := bc } := by
  unfold OSD.batch_store
  obtain ⟨⟨om, bc, h1⟩, _⟩ :=
    store_go_shape (m := m) (List.range' start (last + 1 - start)) n Txn.empty
  exact ⟨om, bc, h1⟩

theorem TxnCoherent_empty : TxnCoherent Txn.empty := by
  intro p hp
  simp [Txn.empty] at hp

theorem batch_store_coherent {n : OSDNode} {m : MOSDMap} (start last : Nat)
    (hwf : WFmsg m) (hcoh : CacheCoherent n) :
    CacheCoherent (OSD.batch_store n m start last).1 ∧
    TxnCoherent (OSD.batch_store n m start last).2.1 := by
  unfold OSD.batch_store
  exact store_go_coherent hwf _ n Txn.empty hcoh TxnCoherent_empty

theorem batch_commit_fields (n : OSDNode) (m : MOSDMap)
    (start first last : Nat) (skip_maps : Bool) :
    (OSD.batch_commit n m start first last skip_maps).osdmap = n.osdmap ∧
    (OSD.batch_commit n m start first last skip_maps).superblock.newest_map = last ∧
    (OSD.batch_commit n m start first last skip_maps).osdmaps
      = (OSD.batch_store n m start last).1.osdmaps ∧
    (OSD.batch_commit n m start first last skip_maps).up_epoch = n.up_epoch ∧
    (OSD.batch_commit n m start first last skip_maps).boot_epoch = n.boot_epoch := by
  obtain ⟨om, bc, hsh⟩ := batch_store_shape n m start last
  obtain ⟨hu1, hu2, hu3⟩ :=
    update_superblock_fields (OSD.batch_store n m start last).1 first last skip_maps
  rcases update_superblock_shape (OSD.batch_store n m start last).1 first last
    skip_maps with ⟨sb, h2⟩
  rw [h2] at hu1
  unfold OSD.batch_commit OSD.commitTxn
  rw [h2]
  refine ⟨?_, ?_, rfl, ?_, ?_⟩
  · rw [hsh]
  · simpa using hu1
  · rw [hsh]
  · rw [hsh]

theorem batch_commit_coherent {n : OSDNode} {m : MOSDMap}
    (start first last : Nat) (skip_maps : Bool)
    (hwf : WFmsg m) (hcoh : CacheCoherent n) :
    CacheCoherent (OSD.batch_commit n m start first last skip_maps) := by
  obtain ⟨hc1, hc2⟩ := batch_store_coherent (n := n) start last hwf hcoh
  unfold OSD.batch_commit
  refine commitTxn_coherent (update_superblock_coherent _ _ _ _ hc1) ?_
  intro p hp
  exact hc2 p hp

theorem apply_batch_master {n : OSDNode} {m : MOSDMap} {start first last : Nat}
    {skip : Bool} {n' : OSDNode} {s l : Nat} {tr : List Nat} {ok : Bool}
    {act : OSDAction}
    (hinv : Inv n) (hwf : WFmsg m)
    (hs1 : 1 ≤ start) (hsl : start ≤ last)
    (hgt : n.superblock.newest_map < start)
    (h : OSD.apply_batch n m start first last skip
          = HandleResult.applied n' s l tr ok act) :
    s = start ∧ l = last ∧
    Inv n' ∧
    tr = (List.range' start (last + 1 - start)).take tr.length ∧
    n'.osdmap.epoch = tr.getLastD n.osdmap.epoch ∧
    n'.superblock.newest_map = last ∧
    List.Chain' (· ≤ ·) (n.osdmap.epoch :: tr) ∧
    (ok = true → tr = List.range' start (last + 1 - start)) ∧
    ((∀ e, start ≤ e → e ≤ last →
        (alLookup m.maps e).isSome = true ∨
        (alLookup m.incremental_maps e).isSome = true) →
      ((alLookup m.maps start).isSome = true ∨
        (OSD.load_map n (start - 1)).isSome = true) →
      ok = true) := by
  have hab := h
  unfold OSD.apply_batch OSD.batch_advance OSD.batch_store at hab
  obtain ⟨hc_osdmap, hc_newest, hc_osdmaps, hc_up, hc_boot⟩ :=
    batch_commit_fields n m start first last skip
  have hc_coh := batch_commit_coherent start first last skip hwf hinv.1
  obtain ⟨ha_coh, ha_take, ha_ep, ha_full⟩ :=
    advance_loop_trace (List.range' start (last + 1 - start))
      (OSD.batch_commit n m start first last skip) hc_coh
  obtain ⟨aom, ao, aue, abe, ha_shape⟩ :=
    advance_loop_shape (List.range' start (last + 1 - start))
      (OSD.batch_commit n m start first last skip)
  have ha_sb : (OSD.advance_loop (OSD.batch_commit n m start first last skip)
        (List.range' start (last + 1 - start))).1.superblock
      = (OSD.batch_commit n m start first last skip).superblock := by
    rw [ha_shape]
  have hbs1 : (OSD.batch_store n m start last).1
      = (OSD.store_go m n Txn.empty (List.range' start (last + 1 - start))).1 := rfl
  have hspan : start + (last + 1 - start) = last + 1 := by omega
  have htr_elem : ∀ x ∈ (OSD.advance_loop (OSD.batch_commit n m start first last skip)
        (List.range' start (last + 1 - start))).2.1, x ≤ last := by
    intro x hx
    rw [ha_take] at hx
    have hx2 := List.take_subset _ _ hx
    have := mem_range'_bounds hx2
    omega
  have hep_le : (OSD.advance_loop (OSD.batch_commit n m start first last skip)
        (List.range' start (last + 1 - start))).2.1.getLastD n.osdmap.epoch ≤ last := by
    by_cases he : (OSD.advance_loop (OSD.batch_commit n m start first last skip)
        (List.range' start (last + 1 - start))).2.1 = []
    · rw [he]
      show n.osdmap.epoch ≤ last
      have h1 := hinv.2
      omega
    · exact htr_elem _ (getLastD_mem _ _ he)
  have hchain : List.Chain' (· ≤ ·) (n.osdmap.epoch ::
      (OSD.advance_loop (OSD.batch_commit n m start first last skip)
        (List.range' start (last + 1 - start))).2.1) := by
    rw [ha_take]
    exact chain_le_cons_take_range' _ _ _ _ (by have := hinv.2; omega)
  have hcompl : (∀ e, start ≤ e → e ≤ last →
        (alLookup m.maps e).isSome = true ∨
        (alLookup m.incremental_maps e).isSome = true) →
      ((alLookup m.maps start).isSome = true ∨
        (OSD.load_map n (start - 1)).isSome = true) →
      (OSD.advance_loop (OSD.batch_commit n m start first last skip)
        (List.range' start (last + 1 - start))).2.2 = true := by
    intro hav hstart
    obtain ⟨hgok, hpop⟩ := store_go_complete (m := m) (last + 1 - start) start n
      Txn.empty hs1 (fun e h1 h2 => hav e h1 (by omega)) hstart
    apply advance_loop_all_cached
    intro e he
    have hb := mem_range'_bounds he
    rw [hc_osdmaps, hbs1]
    exact hpop e hb.1 hb.2
  split at hab
  · exact HandleResult.noConfusion hab
  · split at hab
    case _ hstore hadv =>
      rw [HandleResult.applied.injEq] at hab
      obtain ⟨hn', hs, hl, htr, hok, hact⟩ := hab
      subst hs; subst hl; subst htr; subst hok; subst hn'
      obtain ⟨t1, t2, t3, t4, t5, t6, t7, t8, t9, t10, t11, t12⟩ :=
        committed_tail_core (OSD.advance_loop
          (OSD.batch_commit n m start first last skip)
          (List.range' start (last + 1 - start))).1 m
      refine ⟨rfl, rfl, ?_, ha_take, ?_, ?_, hchain, fun _ => ha_full hadv,
        fun _ _ => rfl⟩
      · constructor
        · exact CacheCoherent_of_fields t2 t3 t4 ha_coh
        · rw [t1, t6, ha_sb, hc_newest, ha_ep, hc_osdmap]
          exact hep_le
      · rw [t1, ha_ep, hc_osdmap]
      · rw [t6, ha_sb, hc_newest]
    case _ hstore hadv =>
      rw [HandleResult.applied.injEq] at hab
      obtain ⟨hn', hs, hl, htr, hok, hact⟩ := hab
      subst hs; subst hl; subst htr; subst hok; subst hn'
      refine ⟨rfl, rfl, ?_, ha_take, ?_, ?_, hchain, ?_, ?_⟩
      · constructor
        · exact ha_coh
        · rw [ha_sb, hc_newest, ha_ep, hc_osdmap]
          exact hep_le
      · rw [ha_ep, hc_osdmap]
      · rw [ha_sb, hc_newest]
      · intro hh; exact absurd hh.symm (by simp)
      · intro hav hstart
        exact absurd (hcompl hav hstart) hadv

theorem chain_glue {R : Nat → Nat → Prop} :
    ∀ (l1 : List Nat) (e0 : Nat) (l2 : List Nat),
      List.Chain' R (e0 :: l1) → List.Chain' R (l1.getLastD e0 :: l2) →
      List.Chain' R (e0 :: l1 ++ l2) := by
  intro l1
  induction l1 with
  | nil => intro e0 l2 _ h2; exact h2
  | cons a l1 ih =>
    intro e0 l2 h1 h2
    rw [List.chain'_cons] at h1
    rw [List.getLastD_cons] at h2
    show List.Chain' R (e0 :: a :: (l1 ++ l2))
    rw [List.chain'_cons]
    exact ⟨h1.1, ih a l2 h1.2 h2⟩

theorem handle_osd_map_master {n : OSDNode} {m : MOSDMap} {n' : OSDNode}
    {s l : Nat} {tr : List Nat} {ok : Bool} {act : OSDAction}
    (hinv : Inv n) (hwf : WFmsg m)
    (h : OSD.handle_osd_map n m = HandleResult.applied n' s l tr ok act) :
    l = m.get_last ∧
    n.superblock.newest_map < s ∧ 1 ≤ s ∧ s ≤ l ∧
    Inv n' ∧
    tr = (List.range' s (l + 1 - s)).take tr.length ∧
    n'.osdmap.epoch = tr.getLastD n.osdmap.epoch ∧
    n'.superblock.newest_map = l ∧
    n.superblock.newest_map < l ∧
    List.Chain' (· ≤ ·) (n.osdmap.epoch :: tr) ∧
    (ok = true → tr = List.range' s (l + 1 - s)) ∧
    ((∀ e, s ≤ e → e ≤ l →
        (alLookup m.maps e).isSome = true ∨
        (alLookup m.incremental_maps e).isSome = true) →
      ((alLookup m.maps s).isSome = true ∨
        (OSD.load_map n (s - 1)).isSome = true) →
      ok = true) := by
  have hh := h
  unfold OSD.handle_osd_map at hh
  dsimp only at hh
  split_ifs at hh with h1 h2 h3 h4 h5 h6
  · have hs1 : 1 ≤ m.get_first := by omega
    have hne : ¬ m.keyEpochs = [] :=
      MOSDMap.get_first_pos_ne_nil m (by omega)
    have hfl : m.get_first ≤ m.get_last := MOSDMap.get_first_le_get_last m hne
    obtain ⟨hs, hl, hInv, htake, hep, hnew, hchain, hokimp, hcompl⟩ :=
      apply_batch_master hinv hwf hs1 hfl (by omega) hh
    subst hs; subst hl
    exact ⟨rfl, by omega, hs1, hfl, hInv, htake, hep, hnew, by omega, hchain,
      hokimp, hcompl⟩
  · have hsl : n.superblock.newest_map + 1 ≤ m.get_last := by omega
    obtain ⟨hs, hl, hInv, htake, hep, hnew, hchain, hokimp, hcompl⟩ :=
      apply_batch_master hinv hwf (by omega) hsl (by omega) hh
    subst hs; subst hl
    exact ⟨rfl, by omega, by omega, hsl, hInv, htake, hep, hnew, by omega,
      hchain, hokimp, hcompl⟩

theorem storeFailed_preserve {n : OSDNode} {m : MOSDMap} (start last : Nat)
    (hinv : Inv n) (hwf : WFmsg m) :
    Inv (OSD.batch_store n m start last).1 ∧
    (OSD.batch_store n m start last).1.superblock.newest_map
      = n.superblock.newest_map ∧
    (OSD.batch_store n m start last).1.osdmap = n.osdmap := by
  obtain ⟨om, bc, hsh⟩ := batch_store_shape n m start last
  obtain ⟨hc1, hc2⟩ := batch_store_coherent (n := n) start last hwf hinv.1
  refine ⟨⟨hc1, ?_⟩, ?_, ?_⟩
  · rw [hsh]; exact hinv.2
  · simp [hsh]
  · simp [hsh]

theorem handle_ignored_preserve {n : OSDNode} {m : MOSDMap} {n1 : OSDNode}
    (h : OSD.handle_osd_map n m = HandleResult.ignored n1) : n1 = n := by
  unfold OSD.handle_osd_map at h
  dsimp only at h
  split_ifs at h
  all_goals first
  | (unfold OSD.apply_batch at h; split_ifs at h)
  | (rw [HandleResult.ignored.injEq] at h; exact h.symm)

theorem handle_subscribe_preserve {n : OSDNode} {m : MOSDMap} {n1 : OSDNode}
    {s : Nat} {f : Bool}
    (h : OSD.handle_osd_map n m = HandleResult.subscribe n1 s f) : n1 = n := by
  unfold OSD.handle_osd_map at h
  dsimp only at h
  split_ifs at h
  all_goals first
  | (unfold OSD.apply_batch at h; split_ifs at h)
  | (rw [HandleResult.subscribe.injEq] at h; exact h.1.symm)

theorem handle_storeFailed_preserve {n : OSDNode} {m : MOSDMap} {n1 : OSDNode}
    (hinv : Inv n) (hwf : WFmsg m)
    (h : OSD.handle_osd_map n m = HandleResult.storeFailed n1) :
    Inv n1 ∧ n1.superblock.newest_map = n.superblock.newest_map ∧
    n1.osdmap = n.osdmap := by
  unfold OSD.handle_osd_map at h
  dsimp only at h
  split_ifs at h
  all_goals (
    unfold OSD.apply_batch at h
    split_ifs at h
    all_goals (
      rw [HandleResult.storeFailed.injEq] at h
      rw [← h]
      exact storeFailed_preserve _ _ hinv hwf))

theorem handle_osd_map_preserve {n : OSDNode} {m : MOSDMap} {r : HandleResult}
    (hinv : Inv n) (hwf : WFmsg m)
    (h : OSD.handle_osd_map n m = r)
    (hnap : r.isApplied = false) :
    Inv r.node ∧ r.node.superblock.newest_map = n.superblock.newest_map ∧
    r.node.osdmap = n.osdmap ∧ r.trace = [] := by
  cases r with
  | applied n1 s l tr ok act =>
    exact absurd hnap (by simp [HandleResult.isApplied])
  | ignored n1 =>
    have h2 := handle_ignored_preserve h
    subst h2
    exact ⟨hinv, rfl, rfl, rfl⟩
  | subscribe n1 s f =>
    have h2 := handle_subscribe_preserve h
    subst h2
    exact ⟨hinv, rfl, rfl, rfl⟩
  | storeFailed n1 =>
    obtain ⟨ha, hb, hc⟩ := handle_storeFailed_preserve hinv hwf h
    exact ⟨ha, hb, hc, rfl⟩

theorem runBatches_spec (ms : List MOSDMap) :
    ∀ n : OSDNode, Inv n → (∀ m ∈ ms, WFmsg m) →
      Inv (runBatches n ms).1 ∧
      List.Chain' (· ≤ ·) (n.osdmap.epoch :: (runBatches n ms).2.1) ∧
      (runBatches n ms).1.osdmap.epoch
        = (runBatches n ms).2.1.getLastD n.osdmap.epoch ∧
      List.Chain' (· < ·) (n.superblock.newest_map :: (runBatches n ms).2.2) ∧
      (runBatches n ms).1.superblock.newest_map
        = (runBatches n ms).2.2.getLastD n.superblock.newest_map := by
  induction ms with
  | nil =>
    intro n hinv _
    exact ⟨hinv, by simp [runBatches], rfl, by simp [runBatches], rfl⟩
  | cons msg ms ih =>
    intro n hinv hwf
    have hwfm : WFmsg msg := hwf msg (List.mem_cons_self _ _)
    cases hr : OSD.handle_osd_map n msg with
    | applied n1 s l tr ok act =>
      obtain ⟨hl, hlt_s, hs1, hsl, hinv1, htake, hep, hnewest, hlt_l, hchain,
        hokimp, hcompl⟩ := handle_osd_map_master hinv hwfm hr
      obtain ⟨ih1, ih2, ih3, ih4, ih5⟩ := ih n1 hinv1
        (fun mm hm => hwf mm (List.mem_cons_of_mem _ hm))
      simp only [runBatches, hr, HandleResult.node, HandleResult.trace,
        HandleResult.appliedLast, List.singleton_append]
      refine ⟨ih1, ?_, ?_, ?_, ?_⟩
      · exact chain_glue tr n.osdmap.epoch _ hchain (by rw [← hep]; exact ih2)
      · rw [getLastD_append, ← hep]
        exact ih3
      · have hpair : List.Chain' (· < ·)
            (n.superblock.newest_map :: [l]) := List.chain'_pair.mpr hlt_l
        have hrest : List.Chain' (· < ·)
            (([l].getLastD n.superblock.newest_map) :: (runBatches n1 ms).2.2) := by
          rw [List.getLastD_cons]
          show List.Chain' (· < ·) (l :: (runBatches n1 ms).2.2)
          rw [← hnewest]
          exact ih4
        have := chain_glue [l] n.superblock.newest_map _ hpair hrest
        simpa using this
      · have h1 : ((l :: (runBatches n1 ms).2.2).getLastD n.superblock.newest_map)
            = (runBatches n1 ms).2.2.getLastD l := List.getLastD_cons _ _ _
        rw [h1, ← hnewest]
        exact ih5
    | ignored n1 =>
      have hpres := handle_osd_map_preserve (r := HandleResult.ignored n1)
        hinv hwfm hr rfl
      simp only [HandleResult.node, HandleResult.trace] at hpres
      obtain ⟨p1, p2, p3, _⟩ := hpres
      obtain ⟨ih1, ih2, ih3, ih4, ih5⟩ := ih n1 p1
        (fun mm hm => hwf mm (List.mem_cons_of_mem _ hm))
      simp only [runBatches, hr, HandleResult.node, HandleResult.trace,
        HandleResult.appliedLast, List.nil_append]
      refine ⟨ih1, ?_, ?_, ?_, ?_⟩
      · rw [← p3]; exact ih2
      · rw [← p3]; exact ih3
      · rw [← p2]; exact ih4
      · rw [← p2]; exact ih5
    | subscribe n1 s f =>
      have hpres := handle_osd_map_preserve (r := HandleResult.subscribe n1 s f)
        hinv hwfm hr rfl
      simp only [HandleResult.node, HandleResult.trace] at hpres
      obtain ⟨p1, p2, p3, _⟩ := hpres
      obtain ⟨ih1, ih2, ih3, ih4, ih5⟩ := ih n1 p1
        (fun mm hm => hwf mm (List.mem_cons_of_mem _ hm))
      simp only [runBatches, hr, HandleResult.node, HandleResult.trace,
        HandleResult.appliedLast, List.nil_append]
      refine ⟨ih1, ?_, ?_, ?_, ?_⟩
      · rw [← p3]; exact ih2
      · rw [← p3]; exact ih3
      · rw [← p2]; exact ih4
      · rw [← p2]; exact ih5
    | storeFailed n1 =>
      have hpres := handle_osd_map_preserve (r := HandleResult.storeFailed n1)
        hinv hwfm hr rfl
      simp only [HandleResult.node, HandleResult.trace] at hpres
      obtain ⟨p1, p2, p3, _⟩ := hpres
      obtain ⟨ih1, ih2, ih3, ih4, ih5⟩ := ih n1 p1
        (fun mm hm => hwf mm (List.mem_cons_of_mem _ hm))
      simp only [runBatches, hr, HandleResult.node, HandleResult.trace,
        HandleResult.appliedLast, List.nil_append]
      refine ⟨ih1, ?_, ?_, ?_, ?_⟩
      · rw [← p3]; exact ih2
      · rw [← p3]; exact ih3
      · rw [← p2]; exact ih4
      · rw [← p2]; exact ih5

/-! ### The `up_epoch`/`boot_epoch` guard -/

theorem advance_step_upboot {n : OSDNode} {cur : Nat} {n1 : OSDNode}
    (h0 : n.up_epoch = 0) (h : OSD.advance_step n cur = some n1) :
    n1.up_epoch = 0 ∧ n1.boot_epoch = n.boot_epoch := by
  unfold OSD.advance_step at h
  rw [Option.map_eq_some'] at h
  rcases h with ⟨p, hget, hf⟩
  rcases get_map_shape hget with ⟨om, hom⟩
  have hup : p.2.up_epoch = 0 := by rw [hom]; exact h0
  rw [if_neg (by rw [hup]; simp)] at hf
  refine ⟨?_, ?_⟩
  · rw [← hf, hom]; exact h0
  · rw [← hf, hom]

theorem advance_loop_upboot :
    ∀ (es : List Nat) (n : OSDNode), n.up_epoch = 0 →
      (OSD.advance_loop n es).1.up_epoch = 0 ∧
      (OSD.advance_loop n es).1.boot_epoch = n.boot_epoch := by
  intro es
  induction es with
  | nil => intro n h0; exact ⟨h0, rfl⟩
  | cons e es ih =>
    intro n h0
    cases hstep : OSD.advance_step n e with
    | none => simp only [OSD.advance_loop, hstep]; exact ⟨h0, trivial⟩
    | some n1 =>
      obtain ⟨hu, hb⟩ := advance_step_upboot h0 hstep
      simp only [OSD.advance_loop, hstep]
      obtain ⟨ihu, ihb⟩ := ih n1 hu
      exact ⟨ihu, ihb.trans hb⟩

theorem apply_batch_upboot {n : OSDNode} {m : MOSDMap}
    {start first last : Nat} {skip : Bool}
    (h0 : n.up_epoch = 0) :
    (OSD.apply_batch n m start first last skip).node.up_epoch = 0 ∧
    (OSD.apply_batch n m start first last skip).node.boot_epoch = n.boot_epoch := by
  obtain ⟨_, _, _, hc_up, hc_boot⟩ := batch_commit_fields n m start first last skip
  obtain ⟨hu, hb⟩ := advance_loop_upboot (List.range' start (last + 1 - start))
    (OSD.batch_commit n m start first last skip) (by rw [hc_up]; exact h0)
  unfold OSD.apply_batch OSD.batch_advance
  split_ifs with hst hadv
  · obtain ⟨om, bc, hsh⟩ := batch_store_shape n m start last
    constructor
    · show (OSD.batch_store n m start last).1.up_epoch = 0
      rw [hsh]; exact h0
    · show (OSD.batch_store n m start last).1.boot_epoch = n.boot_epoch
      rw [hsh]
  · obtain ⟨tu, tb⟩ := committed_tail_upboot
      (OSD.advance_loop (OSD.batch_commit n m start first last skip)
        (List.range' start (last + 1 - start))).1 m hu
    exact ⟨tu, tb.trans (hb.trans hc_boot)⟩
  · exact ⟨hu, hb.trans hc_boot⟩

theorem batch_store_upboot {n : OSDNode} (m : MOSDMap) (start last : Nat)
    (h0 : n.up_epoch = 0) :
    (OSD.batch_store n m start last).1.up_epoch = 0 ∧
    (OSD.batch_store n m start last).1.boot_epoch = n.boot_epoch := by
  obtain ⟨om, bc, hsh⟩ := batch_store_shape n m start last
  refine ⟨?_, ?_⟩
  · rw [hsh]; exact h0
  · rw [hsh]

theorem handle_storeFailed_upboot {n : OSDNode} {m : MOSDMap} {n1 : OSDNode}
    (h0 : n.up_epoch = 0)
    (h : OSD.handle_osd_map n m = HandleResult.storeFailed n1) :
    n1.up_epoch = 0 ∧ n1.boot_epoch = n.boot_epoch := by
  unfold OSD.handle_osd_map at h
  dsimp only at h
  split_ifs at h
  all_goals (
    unfold OSD.apply_batch at h
    split_ifs at h
    all_goals (
      rw [HandleResult.storeFailed.injEq] at h
      rw [← h]
      exact batch_store_upboot m _ _ h0))

theorem handle_applied_upboot {n : OSDNode} {m : MOSDMap} {n1 : OSDNode}
    {s l : Nat} {tr : List Nat} {ok : Bool} {act : OSDAction}
    (h0 : n.up_epoch = 0)
    (h : OSD.handle_osd_map n m = HandleResult.applied n1 s l tr ok act) :
    n1.up_epoch = 0 ∧ n1.boot_epoch = n.boot_epoch := by
  unfold OSD.handle_osd_map at h
  dsimp only at h
  split_ifs at h
  all_goals (
    have h2 := congrArg HandleResult.node h
    simp only [HandleResult.node] at h2
    rw [← h2]
    exact apply_batch_upboot h0)

theorem handle_osd_map_upboot {n : OSDNode} {m : MOSDMap}
    (h0 : n.up_epoch = 0) :
    (OSD.handle_osd_map n m).node.up_epoch = 0 ∧
    (OSD.handle_osd_map n m).node.boot_epoch = n.boot_epoch := by
  cases hr : OSD.handle_osd_map n m with
  | ignored n1 =>
    have h2 := handle_ignored_preserve hr
    subst h2
    exact ⟨h0, rfl⟩
  | subscribe n1 s f =>
    have h2 := handle_subscribe_preserve hr
    subst h2
    exact ⟨h0, rfl⟩
  | storeFailed n1 =>
    exact handle_storeFailed_upboot h0 hr
  | applied n1 s l tr ok act =>
    exact handle_applied_upboot h0 hr

theorem stepEvent_upboot {n : OSDNode} (ev : OSDEvent)
    (h0 : n.up_epoch = 0) :
    (stepEvent n ev).up_epoch = 0 ∧
    (stepEvent n ev).boot_epoch = n.boot_epoch := by
  cases ev with
  | mapMsg m => exact handle_osd_map_upboot h0
  | restartEv => exact ⟨rfl, rfl⟩

theorem runEvents_upboot (evs : List OSDEvent) :
    ∀ n : OSDNode, n.up_epoch = 0 →
      (runEvents n evs).up_epoch = 0 ∧
      (runEvents n evs).boot_epoch = n.boot_epoch := by
  induction evs with
  | nil => intro n h0; exact ⟨h0, rfl⟩
  | cons ev evs ih =>
    intro n h0
    obtain ⟨hu, hb⟩ := stepEvent_upboot ev h0
    obtain ⟨ihu, ihb⟩ := ih (stepEvent n ev) hu
    exact ⟨ihu, ihb.trans hb⟩

/-! ### Store-loop write-content lemmas -/

theorem store_go_blcache_mono {m : MOSDMap} :
    ∀ (es : List Nat) (n : OSDNode) (t : Txn) (k : Nat),
      (alLookup n.map_bl_cache k).isSome = true →
      (alLookup (OSD.store_go m n t es).1.map_bl_cache k).isSome = true := by
  intro es
  induction es with
  | nil => intro n t k hk; exact hk
  | cons e es ih =>
    intro n t k hk
    cases hstep : OSD.store_maps_step m (n, t) e with
    | none => simp only [OSD.store_go, hstep]; exact hk
    | some p =>
      obtain ⟨n1, t1⟩ := p
      obtain ⟨_, hmono, _⟩ := store_maps_step_caches hstep
      simp only [OSD.store_go, hstep]
      exact ih n1 t1 k (hmono k hk)

theorem store_go_writes_mono {m : MOSDMap} (es : List Nat) (n : OSDNode)
    (t : Txn) {p : Nat × Bytes} (hp : p ∈ t.map_writes) :
    p ∈ (OSD.store_go m n t es).2.1.map_writes := by
  obtain ⟨_, ⟨ws, hws⟩⟩ := store_go_shape (m := m) es n t
  rw [hws]
  exact List.mem_append_left _ hp

theorem store_maps_step_inc {m : MOSDMap} {nmid : OSDNode} {tmid : Txn}
    {e : Nat} {bl : Bytes} {n2 : OSDNode} {t2 : Txn}
    (hfull : alLookup m.maps e = none)
    (hinc : alLookup m.incremental_maps e = some bl)
    (h : OSD.store_maps_step m (nmid, tmid) e = some (n2, t2)) :
    ∃ prev, OSD.load_map nmid (e - 1) = some prev ∧
      t2.map_writes = tmid.map_writes ++
        [(e, OSDMap.encodeMap (OSDMap.apply_incremental prev (decodeInc bl))
              (Nat.lor (decodeInc bl).encode_features CEPH_FEATURE_RESERVED))] ∧
      alLookup n2.map_bl_cache e
        = some (OSDMap.encodeMap (OSDMap.apply_incremental prev (decodeInc bl))
              (Nat.lor (decodeInc bl).encode_features CEPH_FEATURE_RESERVED)) ∧
      alLookup n2.osdmaps e
        = some (OSDMap.apply_incremental prev (decodeInc bl)) := by
  unfold OSD.store_maps_step at h
  simp only [hfull, hinc] at h
  rw [Option.map_eq_some'] at h
  rcases h with ⟨prev, hload, hpair⟩
  simp only [OSD.store_map_bl, Prod.mk.injEq] at hpair
  obtain ⟨h1, h2⟩ := hpair
  refine ⟨prev, hload, ?_, ?_, ?_⟩
  · rw [← h2]
  · rw [← h1]
    exact alLookup_alInsert_self _ _ _
  · rw [← h1]
    exact alLookup_alInsert_self _ _ _

theorem store_go_writes_full {m : MOSDMap}
    (hmaps : ∀ p ∈ m.maps, ∃ mo, p.2 = Bytes.full mo) :
    ∀ (es : List Nat) (n : OSDNode) (t : Txn),
      (∀ p ∈ t.map_writes, ∃ mo, p.2 = Bytes.full mo) →
      ∀ p ∈ (OSD.store_go m n t es).2.1.map_writes, ∃ mo, p.2 = Bytes.full mo := by
  intro es
  induction es with
  | nil => intro n t ht; exact ht
  | cons e es ih =>
    intro n t ht
    cases hstep : OSD.store_maps_step m (n, t) e with
    | none => simp only [OSD.store_go, hstep]; exact ht
    | some p =>
      obtain ⟨n1, t1⟩ := p
      simp only [OSD.store_go, hstep]
      refine ih n1 t1 ?_
      unfold OSD.store_maps_step at hstep
      split at hstep
      case _ bl hbl =>
        simp only [OSD.store_map_bl, Option.some.injEq, Prod.mk.injEq] at hstep
        obtain ⟨h1, h2⟩ := hstep
        rw [← h2]
        intro q hq
        rcases List.mem_append.mp hq with hh | hh
        · exact ht q hh
        · rw [List.mem_singleton.mp hh]
          obtain ⟨mo, hmo⟩ := hmaps _ (mem_of_alLookup_eq_some hbl)
          exact ⟨mo, hmo⟩
      case _ hbl =>
        split at hstep
        case _ bl hinc =>
          rw [Option.map_eq_some'] at hstep
          rcases hstep with ⟨prev, hload, hpair⟩
          simp only [OSD.store_map_bl, Prod.mk.injEq] at hpair
          obtain ⟨h1, h2⟩ := hpair
          rw [← h2]
          intro q hq
          rcases List.mem_append.mp hq with hh | hh
          · exact ht q hh
          · rw [List.mem_singleton.mp hh]
            exact ⟨_, rfl⟩
        case _ hinc =>
          rw [Option.some.injEq, Prod.mk.injEq] at hstep
          obtain ⟨h1, h2⟩ := hstep
          rw [← h2]
          exact ht

theorem store_go_skip {m : MOSDMap} {e : Nat}
    (hmiss_f : alLookup m.maps e = none)
    (hmiss_i : alLookup m.incremental_maps e = none) :
    ∀ (es : List Nat) (n : OSDNode) (t : Txn),
      (∀ x ∈ es, x = e ∨ (alLookup m.maps x).isSome = true) →
      (OSD.store_go m n t es).2.2 = true ∧
      alLookup (OSD.store_go m n t es).1.map_bl_cache e
        = alLookup n.map_bl_cache e ∧
      alLookup (OSD.store_go m n t es).1.osdmaps e = alLookup n.osdmaps e ∧
      (∀ v, (e, v) ∈ (OSD.store_go m n t es).2.1.map_writes →
        (e, v) ∈ t.map_writes) ∧
      (∀ x, x ∈ es → ¬ x = e →
        (alLookup (OSD.store_go m n t es).1.map_bl_cache x).isSome = true ∧
        ∃ v, (x, v) ∈ (OSD.store_go m n t es).2.1.map_writes) := by
  intro es
  induction es with
  | nil =>
    intro n t _
    exact ⟨rfl, rfl, rfl, fun v hv => hv, fun x hx => absurd hx (by simp)⟩
  | cons x es ih =>
    intro n t hall
    by_cases hxe : x = e
    · subst hxe
      have hstep : OSD.store_maps_step m (n, t) x = some (n, t) := by
        unfold OSD.store_maps_step
        simp only [hmiss_f, hmiss_i]
      simp only [OSD.store_go, hstep]
      obtain ⟨c1, c2, c3, c4, c5⟩ :=
        ih n t (fun y hy => hall y (List.mem_cons_of_mem _ hy))
      refine ⟨c1, c2, c3, c4, ?_⟩
      intro y hy hye
      rcases List.mem_cons.mp hy with hh | hh
      · exact absurd hh hye
      · exact c5 y hh hye
    · have hx := hall x (List.mem_cons_self _ _)
      rcases hx with hh | hh
      · exact absurd hh hxe
      rcases Option.isSome_iff_exists.mp hh with ⟨bl, hbl⟩
      have hstep : OSD.store_maps_step m (n, t) x
          = some ({ { n with map_bl_cache := alInsert n.map_bl_cache x bl } with
                    osdmaps := alInsert n.osdmaps x (decodeMap bl) },
                  { t with map_writes := t.map_writes ++ [(x, bl)] }) := by
        unfold OSD.store_maps_step
        simp only [hbl]
        rfl
      simp only [OSD.store_go, hstep]
      obtain ⟨c1, c2, c3, c4, c5⟩ :=
        ih _ _ (fun y hy => hall y (List.mem_cons_of_mem _ hy))
      refine ⟨c1, ?_, ?_, ?_, ?_⟩
      · rw [c2]
        exact alLookup_alInsert_ne _ _ _ _ (fun hc => hxe hc.symm)
      · rw [c3]
        exact alLookup_alInsert_ne _ _ _ _ (fun hc => hxe hc.symm)
      · intro v hv
        have := c4 v hv
        rcases List.mem_append.mp this with hh2 | hh2
        · exact hh2
        · exact absurd (List.mem_singleton.mp hh2)
            (by intro hc; exact hxe (congrArg Prod.fst hc).symm)
      · intro y hy hye
        rcases List.mem_cons.mp hy with hh2 | hh2
        · subst hh2
          constructor
          · apply store_go_blcache_mono
            rw [alLookup_alInsert_self]
            rfl
          · exact ⟨bl, store_go_writes_mono _ _ _
              (List.mem_append_right _ (List.mem_singleton.mpr rfl))⟩
        · exact c5 y hh2 hye

/-! ### Advance-loop cache-absence lemmas -/

theorem get_map_osdmaps_lookup {n : OSDNode} {cur : Nat}
    {p : OSDMap × OSDNode} {e : Nat} (hne : ¬ cur = e)
    (h : OSD.get_map n cur = some p) :
    alLookup p.2.osdmaps e = alLookup n.osdmaps e := by
  unfold OSD.get_map at h
  split at h
  case _ o hfound =>
    rw [Option.some.injEq] at h
    rw [← h]
  case _ hfound =>
    rw [Option.map_eq_some'] at h
    rcases h with ⟨o, hload, hp⟩
    rw [← hp]
    exact alLookup_alInsert_ne _ _ _ _ (fun hc => hne hc.symm)

theorem get_map_none_of_unknown {n : OSDNode} {e : Nat} (he : 0 < e)
    (h1 : alLookup n.osdmaps e = none)
    (h2 : alLookup n.map_bl_cache e = none)
    (h3 : alLookup n.persisted e = none) :
    OSD.get_map n e = none := by
  unfold OSD.get_map
  rw [h1]
  unfold OSD.load_map OSD.load_map_bl
  rw [if_pos he, h2, h3]
  rfl

theorem advance_loop_none_at {e : Nat} (he : 0 < e) :
    ∀ (es : List Nat) (n : OSDNode),
      alLookup n.osdmaps e = none →
      alLookup n.map_bl_cache e = none →
      alLookup n.persisted e = none →
      alLookup (OSD.advance_loop n es).1.osdmaps e = none ∧
      alLookup (OSD.advance_loop n es).1.map_bl_cache e = none ∧
      alLookup (OSD.advance_loop n es).1.persisted e = none := by
  intro es
  induction es with
  | nil => intro n h1 h2 h3; exact ⟨h1, h2, h3⟩
  | cons cur es ih =>
    intro n h1 h2 h3
    cases hstep : OSD.advance_step n cur with
    | none => simp only [OSD.advance_loop, hstep]; exact ⟨h1, h2, h3⟩
    | some n1 =>
      simp only [OSD.advance_loop, hstep]
      by_cases hce : cur = e
      · subst hce
        have := get_map_none_of_unknown he h1 h2 h3
        unfold OSD.advance_step at hstep
        rw [this] at hstep
        cases hstep
      · have hstep2 := hstep
        unfold OSD.advance_step at hstep2
        rw [Option.map_eq_some'] at hstep2
        rcases hstep2 with ⟨p, hget, hf⟩
        have hosd : alLookup n1.osdmaps e = none := by
          have hpe := get_map_osdmaps_lookup hce hget
          have : n1.osdmaps = p.2.osdmaps := by
            split at hf <;> [skip; skip]
            · split at hf <;> rw [← hf]
            · rw [← hf]
          rw [this, hpe]
          exact h1
        have hshape := advance_step_shape hstep
        rcases hshape with ⟨om, o, ue, be, hsh⟩
        have hbl : alLookup n1.map_bl_cache e = none := by
          rw [hsh]; exact h2
        have hpers : alLookup n1.persisted e = none := by
          rw [hsh]; exact h3
        exact ih n1 hosd hbl hpers

/-! ### Restart-branch lemmas -/

theorem should_restart_of_mismatch {q : OSDNode}
    (hmis : OSDMap.is_up q.osdmap q.whoami = false ∨
      ¬ OSDMap.get_addrs q.osdmap q.whoami = q.myaddrs ∨
      ¬ OSDMap.get_cluster_addrs q.osdmap q.whoami = q.cluster_myaddrs) :
    OSD.should_restart q = true := by
  unfold OSD.should_restart
  by_cases h1 : OSDMap.is_up q.osdmap q.whoami = false
  · rw [if_pos h1]
  · rw [if_neg h1]
    by_cases h2 : OSDMap.get_addrs q.osdmap q.whoami = q.myaddrs
    · rw [if_neg (not_not_intro h2)]
      by_cases h3 : OSDMap.get_cluster_addrs q.osdmap q.whoami = q.cluster_myaddrs
      · rcases hmis with h | h | h
        · exact absurd h h1
        · exact absurd h2 h
        · exact absurd h3 h
      · rw [if_pos h3]
    · rw [if_pos h2]

theorem lifecycle_dispatch_restart (q : OSDNode) (m : MOSDMap)
    (hact : q.state = NodeState.active)
    (hex : OSDMap.exists_osd q.osdmap q.whoami = true)
    (hsr : OSD.should_restart q = true) :
    OSD.lifecycle_dispatch q m = OSD.restart q := by
  unfold OSD.lifecycle_dispatch
  rw [if_pos hact, if_neg (by simp [hex]), if_pos hsr]

/-! ### Range-membership helper -/

theorem mem_range'_of_bounds {s k x : Nat} (h1 : s ≤ x) (h2 : x < s + k) :
    x ∈ List.range' s k := by
  induction k generalizing s with
  | zero => omega
  | succ k ih =>
    rw [List.range'_succ]
    by_cases hx : x = s
    · exact hx ▸ List.mem_cons_self _ _
    · exact List.mem_cons_of_mem _ (ih (by omega) (by omega))

/-! ### The committed batch at a skipped epoch -/

theorem batch_commit_skip_epoch {n : OSDNode} {m : MOSDMap} {e : Nat}
    (start first last : Nat) (skip : Bool)
    (hmiss_f : alLookup m.maps e = none)
    (hmiss_i : alLookup m.incremental_maps e = none)
    (hall : ∀ x ∈ List.range' start (last + 1 - start),
      x = e ∨ (alLookup m.maps x).isSome = true)
    (hbl : alLookup n.map_bl_cache e = none)
    (hos : alLookup n.osdmaps e = none)
    (hpe : alLookup n.persisted e = none) :
    (OSD.batch_store n m start last).2.2 = true ∧
    alLookup (OSD.batch_commit n m start first last skip).map_bl_cache e = none ∧
    alLookup (OSD.batch_commit n m start first last skip).osdmaps e = none ∧
    alLookup (OSD.batch_commit n m start first last skip).persisted e = none ∧
    (∀ x, x ∈ List.range' start (last + 1 - start) → ¬ x = e →
      (alLookup (OSD.batch_commit n m start first last skip).persisted x).isSome
        = true) := by
  obtain ⟨c1, c2, c3, c4, c5⟩ :=
    store_go_skip hmiss_f hmiss_i (List.range' start (last + 1 - start)) n
      Txn.empty hall
  obtain ⟨⟨om, bc, hnsh⟩, ⟨ws, htsh⟩⟩ :=
    store_go_shape (m := m) (List.range' start (last + 1 - start)) n Txn.empty
  have hproj_bl : (OSD.batch_commit n m start first last skip).map_bl_cache
      = (OSD.store_go m n Txn.empty
          (List.range' start (last + 1 - start))).1.map_bl_cache := rfl
  have hproj_os : (OSD.batch_commit n m start first last skip).osdmaps
      = (OSD.store_go m n Txn.empty
          (List.range' start (last + 1 - start))).1.osdmaps := rfl
  have hproj_pe : (OSD.batch_commit n m start first last skip).persisted
      = (OSD.store_go m n Txn.empty
          (List.range' start (last + 1 - start))).2.1.map_writes.foldl
          (fun ps p => alInsert ps p.1 p.2)
          (OSD.store_go m n Txn.empty
            (List.range' start (last + 1 - start))).1.persisted := rfl
  have hNpe : (OSD.store_go m n Txn.empty
        (List.range' start (last + 1 - start))).1.persisted = n.persisted := by
    rw [hnsh]
  refine ⟨c1, ?_, ?_, ?_, ?_⟩
  · rw [hproj_bl, c2]; exact hbl
  · rw [hproj_os, c3]; exact hos
  · have hno : ∀ v, ¬ (e, v) ∈ (OSD.store_go m n Txn.empty
        (List.range' start (last + 1 - start))).2.1.map_writes := by
      intro v hv
      have := c4 v hv
      simp [Txn.empty] at this
    rw [hproj_pe, alLookup_foldl_alInsert_of_not_mem _ _ hno, hNpe]
    exact hpe
  · intro x hx hxe
    obtain ⟨_, v, hv⟩ := c5 x hx hxe
    rw [hproj_pe]
    exact isSome_alLookup_foldl_alInsert_of_mem hv _

/-! ### The store loop aborts on an incremental after a hole -/

theorem store_maps_step_blcache_ne {m : MOSDMap} {n : OSDNode} {t : Txn}
    {x e : Nat} {n1 : OSDNode} {t1 : Txn} (hne : ¬ x = e)
    (h : OSD.store_maps_step m (n, t) x = some (n1, t1)) :
    alLookup n1.map_bl_cache e = alLookup n.map_bl_cache e := by
  unfold OSD.store_maps_step at h
  split at h
  case _ bl hbl =>
    simp only [OSD.store_map_bl, Option.some.injEq, Prod.mk.injEq] at h
    obtain ⟨h1, _⟩ := h
    rw [← h1]
    exact alLookup_alInsert_ne _ _ _ _ (fun hc => hne hc.symm)
  case _ hbl =>
    split at h
    case _ bl hinc =>
      rw [Option.map_eq_some'] at h
      rcases h with ⟨prev, hload, hpair⟩
      simp only [OSD.store_map_bl, Prod.mk.injEq] at hpair
      obtain ⟨h1, _⟩ := hpair
      rw [← h1]
      exact alLookup_alInsert_ne _ _ _ _ (fun hc => hne hc.symm)
    case _ hinc =>
      rw [Option.some.injEq, Prod.mk.injEq] at h
      obtain ⟨h1, _⟩ := h
      rw [← h1]

theorem store_go_fails_missing_pred {m : MOSDMap} {e : Nat} (he : 0 < e)
    (hmiss_f : alLookup m.maps e = none)
    (hmiss_i : alLookup m.incremental_maps e = none)
    (hnext_f : alLookup m.maps (e + 1) = none)
    (hnext_i : (alLookup m.incremental_maps (e + 1)).isSome = true) :
    ∀ (es : List Nat) (n : OSDNode) (t : Txn),
      (e + 1) ∈ es →
      alLookup n.map_bl_cache e = none →
      alLookup n.persisted e = none →
      (OSD.store_go m n t es).2.2 = false := by
  intro es
  induction es with
  | nil => intro n t hmem; cases hmem
  | cons x es ih =>
    intro n t hmem hbl hpe
    by_cases hx1 : x = e + 1
    · subst hx1
      rcases Option.isSome_iff_exists.mp hnext_i with ⟨bl, hbl'⟩
      have hload : OSD.load_map n e = none := by
        unfold OSD.load_map OSD.load_map_bl
        rw [if_pos he, hbl, hpe]
        rfl
      have hstep : OSD.store_maps_step m (n, t) (e + 1) = none := by
        unfold OSD.store_maps_step
        simp only [hnext_f, hbl']
        rw [Nat.add_sub_cancel, hload]
        rfl
      simp only [OSD.store_go, hstep]
    · have hmem' : (e + 1) ∈ es := by
        rcases List.mem_cons.mp hmem with h | h
        · exact absurd h.symm hx1
        · exact h
      cases hstep : OSD.store_maps_step m (n, t) x with
      | none => simp only [OSD.store_go, hstep]
      | some p =>
        obtain ⟨n1, t1⟩ := p
        simp only [OSD.store_go, hstep]
        have hpe1 : n1.persisted = n.persisted := by
          obtain ⟨⟨om, bc, hn1⟩, _⟩ := store_maps_step_shape hstep
          rw [hn1]
        by_cases hxe : x = e
        · subst hxe
          have hskip : OSD.store_maps_step m (n, t) x = some (n, t) := by
            unfold OSD.store_maps_step
            simp only [hmiss_f, hmiss_i]
          rw [hskip] at hstep
          rw [Option.some.injEq, Prod.mk.injEq] at hstep
          obtain ⟨h1, h2⟩ := hstep
          refine ih n1 t1 hmem' ?_ ?_
          · rw [← h1]; exact hbl
          · rw [← h1]; exact hpe
        · have hblpres := store_maps_step_blcache_ne hxe hstep
          refine ih n1 t1 hmem' ?_ ?_
          · rw [hblpres]; exact hbl
          · rw [hpe1]; exact hpe

/-- The success branch of the missing-epoch scenario: when every other
epoch of the range carries a full encoding, the batch goes through the
whole apply phase with the hole skipped. -/
theorem handle_skip_epoch_applied (n : OSDNode) (m : MOSDMap) (e : Nat)
    (hmiss_f : alLookup m.maps e = none)
    (hmiss_i : alLookup m.incremental_maps e = none)
    (hlo : n.superblock.newest_map + 1 ≤ e) (hhi : e ≤ m.get_last)
    (hothers : ∀ x, n.superblock.newest_map + 1 ≤ x → x ≤ m.get_last →
      ¬ x = e → (alLookup m.maps x).isSome = true)
    (hbl : alLookup n.map_bl_cache e = none)
    (hos : alLookup n.osdmaps e = none)
    (hpe : alLookup n.persisted e = none)
    (happly : OSD.handle_osd_map n m
      = OSD.apply_batch n m (n.superblock.newest_map + 1) m.get_first
          m.get_last false) :
    (OSD.batch_store n m (n.superblock.newest_map + 1) m.get_last).2.2
      = true ∧
    ∃ n' tr ok act,
      OSD.handle_osd_map n m
        = HandleResult.applied n' (n.superblock.newest_map + 1) m.get_last
            tr ok act ∧
      n'.superblock.newest_map = m.get_last ∧
      alLookup n'.persisted e = none ∧
      alLookup n'.map_bl_cache e = none ∧
      alLookup n'.osdmaps e = none ∧
      (∀ x, n.superblock.newest_map + 1 ≤ x → x ≤ m.get_last → ¬ x = e →
        (alLookup n'.persisted x).isSome = true) := by
  have hall : ∀ x ∈ List.range' (n.superblock.newest_map + 1)
      (m.get_last + 1 - (n.superblock.newest_map + 1)),
      x = e ∨ (alLookup m.maps x).isSome = true := by
    intro x hx
    obtain ⟨hx1, hx2⟩ := mem_range'_bounds hx
    by_cases hxe : x = e
    · exact Or.inl hxe
    · exact Or.inr (hothers x hx1 (by omega) hxe)
  obtain ⟨k1, k2, k3, k4, k5⟩ :=
    batch_commit_skip_epoch (n.superblock.newest_map + 1) m.get_first
      m.get_last false hmiss_f hmiss_i hall hbl hos hpe
  have he0 : 0 < e := by omega
  obtain ⟨a1, a2, a3⟩ := advance_loop_none_at he0
    (List.range' (n.superblock.newest_map + 1)
      (m.get_last + 1 - (n.superblock.newest_map + 1)))
    (OSD.batch_commit n m (n.superblock.newest_map + 1) m.get_first
      m.get_last false) k3 k2 k4
  obtain ⟨aom, ao, aue, abe, hash⟩ := advance_loop_shape
    (List.range' (n.superblock.newest_map + 1)
      (m.get_last + 1 - (n.superblock.newest_map + 1)))
    (OSD.batch_commit n m (n.superblock.newest_map + 1) m.get_first
      m.get_last false)
  have hA : OSD.batch_advance n m (n.superblock.newest_map + 1) m.get_first
      m.get_last false
      = OSD.advance_loop
          (OSD.batch_commit n m (n.superblock.newest_map + 1) m.get_first
            m.get_last false)
          (List.range' (n.superblock.newest_map + 1)
            (m.get_last + 1 - (n.superblock.newest_map + 1))) := rfl
  have hA1os : alLookup (OSD.batch_advance n m (n.superblock.newest_map + 1)
      m.get_first m.get_last false).1.osdmaps e = none := by
    rw [hA]; exact a1
  have hA1bl : alLookup (OSD.batch_advance n m (n.superblock.newest_map + 1)
      m.get_first m.get_last false).1.map_bl_cache e = none := by
    rw [hA]; exact a2
  have hA1pe : alLookup (OSD.batch_advance n m (n.superblock.newest_map + 1)
      m.get_first m.get_last false).1.persisted e = none := by
    rw [hA]; exact a3
  have hApe_eq : (OSD.batch_advance n m (n.superblock.newest_map + 1)
      m.get_first m.get_last false).1.persisted
      = (OSD.batch_commit n m (n.superblock.newest_map + 1) m.get_first
          m.get_last false).persisted := by
    rw [hA, hash]
  have hAnew : (OSD.batch_advance n m (n.superblock.newest_map + 1)
      m.get_first m.get_last false).1.superblock.newest_map = m.get_last := by
    rw [hA, hash]
    exact (batch_commit_fields n m (n.superblock.newest_map + 1) m.get_first
      m.get_last false).2.1
  have hApe_x : ∀ x, n.superblock.newest_map + 1 ≤ x → x ≤ m.get_last →
      ¬ x = e →
      (alLookup (OSD.batch_advance n m (n.superblock.newest_map + 1)
        m.get_first m.get_last false).1.persisted x).isSome = true := by
    intro x hx1 hx2 hxe
    rw [hApe_eq]
    exact k5 x (mem_range'_of_bounds hx1 (by omega)) hxe
  refine ⟨k1, ?_⟩
  rw [happly]
  unfold OSD.apply_batch
  rw [if_neg (by simp [k1])]
  by_cases hadv : (OSD.batch_advance n m (n.superblock.newest_map + 1)
      m.get_first m.get_last false).2.2 = true
  · rw [if_pos hadv]
    obtain ⟨t1, t2, t3, t4, t5, t6, t7, t8, t9, t10, t11, t12⟩ :=
      committed_tail_core (OSD.batch_advance n m (n.superblock.newest_map + 1)
        m.get_first m.get_last false).1 m
    refine ⟨_, _, _, _, rfl, ?_, ?_, ?_, ?_, ?_⟩
    · exact t6.trans hAnew
    · rw [t4]; exact hA1pe
    · rw [t3]; exact hA1bl
    · rw [t2]; exact hA1os
    · intro x hx1 hx2 hxe
      rw [t4]
      exact hApe_x x hx1 hx2 hxe
  · rw [if_neg hadv]
    refine ⟨_, _, _, _, rfl, ?_, ?_, ?_, ?_, ?_⟩
    · exact hAnew
    · exact hA1pe
    · exact hA1bl
    · exact hA1os
    · exact hApe_x

/-! ## The claims -/

/-- C1: every applied batch advances the visible current-map pointer
sequentially epoch-by-epoch — the published trace is a prefix of the
consecutive range `[start, last]` (so no epoch is skipped and no later
epoch becomes visible before an earlier one), it is the whole range when
the advance loop completes, and the node lands on the last published
epoch; across any sequence of applied batches the visible epoch is
non-decreasing and the superblock's `newest_map` equals the highest epoch
ever applied (the `last` of the most recent applied batch). -/
theorem C1_sequential_monotone_advance (n : OSDNode) (ms : List MOSDMap)
    (hinv : Inv n) (hwf : ∀ m ∈ ms, WFmsg m) :
    (∀ (n0 : OSDNode) (m : MOSDMap) (n' : OSDNode) (s l : Nat)
        (tr : List Nat) (ok : Bool) (act : OSDAction),
      Inv n0 → WFmsg m →
      OSD.handle_osd_map n0 m = HandleResult.applied n' s l tr ok act →
      tr = (List.range' s (l + 1 - s)).take tr.length ∧
      List.Chain' (· ≤ ·) (n0.osdmap.epoch :: tr) ∧
      n'.osdmap.epoch = tr.getLastD n0.osdmap.epoch ∧
      n'.superblock.newest_map = l ∧
      (ok = true → tr = List.range' s (l + 1 - s))) ∧
    List.Chain' (· ≤ ·) (n.osdmap.epoch :: (runBatches n ms).2.1) ∧
    (runBatches n ms).1.osdmap.epoch
      = (runBatches n ms).2.1.getLastD n.osdmap.epoch ∧
    List.Chain' (· < ·) (n.superblock.newest_map :: (runBatches n ms).2.2) ∧
    (runBatches n ms).1.superblock.newest_map
      = (runBatches n ms).2.2.getLastD n.superblock.newest_map := by
  obtain ⟨_, h2, h3, h4, h5⟩ := runBatches_spec ms n hinv hwf
  refine ⟨?_, h2, h3, h4, h5⟩
  intro n0 m n' s l tr ok act hinv0 hwfm h
  obtain ⟨_, _, _, _, _, htake, hep, hnew, _, hchain, hokimp, _⟩ :=
    handle_osd_map_master hinv0 hwfm h
  exact ⟨htake, hchain, hep, hnew, hokimp⟩

/-- Witness for C1 at `freshNode` with the two-epoch batch `batchMsg`. -/
theorem C1_witness :
    Inv freshNode ∧
    List.Chain' (· ≤ ·)
      (freshNode.osdmap.epoch :: (runBatches freshNode [batchMsg]).2.1) ∧
    (runBatches freshNode [batchMsg]).1.superblock.newest_map
      = (runBatches freshNode [batchMsg]).2.2.getLastD
          freshNode.superblock.newest_map := by
  have h := C1_sequential_monotone_advance freshNode [batchMsg]
    (by decide) (by decide)
  exact ⟨by decide, h.2.1, h.2.2.2.2⟩

/-- C2 counterexample: `gapMsg` (first epoch 5, authority oldest 5) leaves
the gap 3..4 after `nodeAt2` (`newest_map` 2) and its oldest cannot cover
the gap, yet `handle_osd_map` applies the batch (the claimed "issue a
subscription and return without applying any epoch" does not happen): the
`skip_maps` path accepts the gap whenever the authority's oldest is at or
past the batch's first epoch. -/
theorem C2_counterexample :
    nodeAt2.superblock.newest_map + 1 < gapMsg.get_first ∧
    ¬ gapMsg.oldest_map ≤ nodeAt2.superblock.newest_map + 1 ∧
    (OSD.handle_osd_map nodeAt2 gapMsg).isApplied = true ∧
    (OSD.handle_osd_map nodeAt2 gapMsg).node.superblock.newest_map = 5 := by
  decide

/-- C2 (amended): on a gap after `newest_map`, the handler subscribes in
delta mode from `newest_map + 1` when the authority's oldest still covers
the gap, subscribes in full mode ending at the authority's oldest when the
oldest lies strictly between `newest_map + 1` and the batch's first epoch,
and otherwise (oldest at or past the batch's first) accepts the gap and
hands the batch to the apply phase starting at its first epoch with
`skip_maps` set. -/
theorem C2_gap_dispatch (n : OSDNode) (m : MOSDMap)
    (hfsid : m.fsid = n.superblock.cluster_fsid)
    (hinit : ¬ n.state = NodeState.initializing)
    (hstale : n.superblock.newest_map < m.get_last)
    (hgap : n.superblock.newest_map + 1 < m.get_first) :
    (m.oldest_map ≤ n.superblock.newest_map + 1 →
      OSD.handle_osd_map n m
        = HandleResult.subscribe n (n.superblock.newest_map + 1) false) ∧
    (n.superblock.newest_map + 1 < m.oldest_map → m.oldest_map < m.get_first →
      OSD.handle_osd_map n m
        = HandleResult.subscribe n (u64sub1 m.oldest_map) true) ∧
    (m.get_first ≤ m.oldest_map →
      OSD.handle_osd_map n m
        = OSD.apply_batch n m m.get_first m.get_first m.get_last true) := by
  unfold OSD.handle_osd_map
  dsimp only
  rw [if_neg (not_not_intro hfsid), if_neg hinit, if_neg (by omega),
      if_pos hgap]
  refine ⟨?_, ?_, ?_⟩
  · intro h1; rw [if_pos h1]
  · intro h1 h2; rw [if_neg (by omega), if_pos h2]
  · intro h1; rw [if_neg (by omega), if_neg (by omega)]

/-- Witness for the amended C2: `gapMsgDelta`'s oldest (3) still covers the
gap after `nodeAt2`, so the handler subscribes in delta mode from 3. -/
theorem C2_witness :
    OSD.handle_osd_map nodeAt2 gapMsgDelta
      = HandleResult.subscribe nodeAt2 (nodeAt2.superblock.newest_map + 1)
          false :=
  (C2_gap_dispatch nodeAt2 gapMsgDelta (by decide) (by decide) (by decide)
    (by decide)).1 (by decide)

/-- C3: an epoch of an applied batch that carries only an incremental diff
is handled by loading the previous epoch's snapshot, applying the decoded
diff, re-encoding the result, and writing the re-encoded full form into
the transaction and both caches as the epoch's record; and whenever every
full encoding carried by the message is a full form, every map record the
store loop ever writes is a full form — an un-re-encoded incremental is
never persisted. -/
theorem C3_incremental_reencoded (m : MOSDMap) (nmid : OSDNode) (tmid : Txn)
    (e : Nat) (bl : Bytes) (n2 : OSDNode) (t2 : Txn)
    (hfull : alLookup m.maps e = none)
    (hinc : alLookup m.incremental_maps e = some bl)
    (hstep : OSD.store_maps_step m (nmid, tmid) e = some (n2, t2)) :
    (∃ prev, OSD.load_map nmid (e - 1) = some prev ∧
      t2.map_writes = tmid.map_writes ++
        [(e, OSDMap.encodeMap (OSDMap.apply_incremental prev (decodeInc bl))
              (Nat.lor (decodeInc bl).encode_features CEPH_FEATURE_RESERVED))] ∧
      alLookup n2.map_bl_cache e
        = some (OSDMap.encodeMap (OSDMap.apply_incremental prev (decodeInc bl))
              (Nat.lor (decodeInc bl).encode_features CEPH_FEATURE_RESERVED)) ∧
      alLookup n2.osdmaps e
        = some (OSDMap.apply_incremental prev (decodeInc bl))) ∧
    ((∀ p ∈ m.maps, ∃ mo, p.2 = Bytes.full mo) →
      ∀ (es : List Nat) (n : OSDNode) (t : Txn),
        (∀ p ∈ t.map_writes, ∃ mo, p.2 = Bytes.full mo) →
        ∀ p ∈ (OSD.store_go m n t es).2.1.map_writes,
          ∃ mo, p.2 = Bytes.full mo) :=
  ⟨store_maps_step_inc hfull hinc hstep,
   fun hmaps es n t ht => store_go_writes_full hmaps es n t ht⟩

/-- Witness for C3: the incremental-only epoch 2 of `batchMsg` processed at
`midNode` (which holds the bytes of epoch 1). -/
theorem C3_witness :
    ∃ prev, OSD.load_map midNode 1 = some prev ∧
      midOut.2.map_writes = Txn.empty.map_writes ++
        [(2, OSDMap.encodeMap
              (OSDMap.apply_incremental prev (decodeInc (Bytes.inc inc2)))
              (Nat.lor (decodeInc (Bytes.inc inc2)).encode_features
                CEPH_FEATURE_RESERVED))] ∧
      alLookup midOut.1.map_bl_cache 2
        = some (OSDMap.encodeMap
              (OSDMap.apply_incremental prev (decodeInc (Bytes.inc inc2)))
              (Nat.lor (decodeInc (Bytes.inc inc2)).encode_features
                CEPH_FEATURE_RESERVED)) ∧
      alLookup midOut.1.osdmaps 2
        = some (OSDMap.apply_incremental prev (decodeInc (Bytes.inc inc2))) :=
  (C3_incremental_reencoded batchMsg midNode Txn.empty 2 (Bytes.inc inc2)
    midOut.1 midOut.2 rfl rfl rfl).1

/-- C4: a PG-creation request from the map authority is checked against the
live current map; if the pool is absent there, or present without the
CREATING flag, the request resolves to no PG, creates no collection, and
surfaces no error (the release assertion between the two checks is assumed
satisfied: `require_osd_release ≥ nautilus`). -/
theorem C4_by_mon_create_dropped (n : OSDNode)
    (place : OSDMap → PGId → Placement) (info : PGCreateInfo)
    (startmap : OSDMap) (n1 : OSDNode)
    (hmon : info.by_mon = true)
    (hget : OSD.get_map n info.epoch = some (startmap, n1))
    (hrel : nautilus ≤ n1.osdmap.require_osd_release)
    (hdrop : OSDMap.get_pg_pool n1.osdmap info.pgid.pool = none ∨
      ∃ pool, OSDMap.get_pg_pool n1.osdmap info.pgid.pool = some pool ∧
        pool.creating = false) :
    OSD.handle_pg_create_info n place info
      = { pg := none, collection_created := false, error := false } := by
  unfold OSD.handle_pg_create_info
  simp only [hget]
  rw [if_pos hmon]
  rcases hdrop with hnone | ⟨pool, hpool, hcr⟩
  · simp only [hnone]
  · simp only [hpool]
    rw [if_neg (by omega), if_pos hcr]

/-- Witness for C4: a by-mon request for pool 3 at `creatingNode`, whose
live map carries pool 3 with the CREATING flag cleared. -/
theorem C4_witness :
    OSD.handle_pg_create_info creatingNode trivialPlacement
      { pgid := { pool := 3, seed := 0, shard := -1 }, epoch := 0,
        by_mon := true }
      = { pg := none, collection_created := false, error := false } :=
  C4_by_mon_create_dropped creatingNode trivialPlacement
    { pgid := { pool := 3, seed := 0, shard := -1 }, epoch := 0,
      by_mon := true }
    emptyOSDMap creatingNode rfl rfl (by decide)
    (Or.inr ⟨poolDone, rfl, rfl⟩)

/-- C5: in preboot, a node the current map marks destroyed fails
permanently (the fatal outcome) when its map is within one epoch of the
authority's newest (`newest - 1 < epoch`, unsigned); when the destruction
record predates that margin (`epoch ≤ newest - 1`, a stale view) the node
waits by re-subscribing for maps instead of failing. -/
theorem C5_preboot_destroyed (n : OSDNode) (oldest newest : Nat)
    (hpos : ¬ n.osdmap.epoch = 0)
    (hdest : OSDMap.is_destroyed n.osdmap n.whoami = true) :
    (u64sub1 newest < n.osdmap.epoch →
      OSD._preboot n oldest newest = (n, OSDAction.fatalDestroyed)) ∧
    (n.osdmap.epoch ≤ u64sub1 newest →
      ∃ s f, OSD._preboot n oldest newest
        = (n, OSDAction.subscribeMaps s f)) := by
  unfold OSD._preboot
  rw [if_neg hpos, if_pos hdest]
  constructor
  · intro h; rw [if_pos h]
  · intro h
    rw [if_neg (by omega)]
    unfold OSD.subscribe_latest
    split_ifs
    · exact ⟨_, _, rfl⟩
    · exact ⟨_, _, rfl⟩

/-- Witness for C5: `destroyedNode` at epoch 3 against an authority whose
newest is 3 fails permanently. -/
theorem C5_witness :
    OSD._preboot destroyedNode 1 3
      = (destroyedNode, OSDAction.fatalDestroyed) :=
  (C5_preboot_destroyed destroyedNode 1 3 (by decide) (by decide)).1
    (by decide)

/-- C6: `make_pg` looks the pool up in the snapshot it is given; when the
pool is absent from that snapshot but present in the durable
final-pool-info store, construction succeeds with the stored definition. -/
theorem C6_make_pg_fallback (n : OSDNode) (create_map : OSDMap) (pgid : PGId)
    (fi : FinalPoolInfo)
    (habsent : OSDMap.have_pg_pool create_map pgid.pool = false)
    (hstored : alLookup n.final_pool_info pgid.pool = some fi) :
    OSD.make_pg n create_map pgid
      = some { pgid := pgid, pool := fi.info, name := fi.name,
               ec_profile := fi.ec_profile, create_epoch := create_map.epoch,
               role := 0 } := by
  have hnone : OSDMap.get_pg_pool create_map pgid.pool = none := by
    cases h : OSDMap.get_pg_pool create_map pgid.pool with
    | none => rfl
    | some pi =>
      unfold OSDMap.have_pg_pool at habsent
      rw [h] at habsent
      cases habsent
  unfold OSD.make_pg
  simp [hnone, hstored]

/-- Witness for C6: pool 9 is absent from the empty snapshot but stored in
`finalPoolNode`'s final-pool-info store. -/
theorem C6_witness :
    OSD.make_pg finalPoolNode emptyOSDMap { pool := 9, seed := 0, shard := -1 }
      = some { pgid := { pool := 9, seed := 0, shard := -1 },
               pool := poolStored, name := "gone", ec_profile := [],
               create_epoch := 0, role := 0 } :=
  C6_make_pg_fallback finalPoolNode emptyOSDMap
    { pool := 9, seed := 0, shard := -1 }
    { info := poolStored, name := "gone", ec_profile := [] } rfl rfl

/-- C7: an active node receiving a map that marks it down or records a
public or cluster address other than its bound one runs the restart
protocol at the end of `committed_osd_maps`: beacon and heartbeat timers
are cancelled, `up_epoch` is reset to 0, the current epoch is recorded as
the bind epoch (an increase when the map moved past the old bind epoch),
and the node re-enters preboot. -/
theorem C7_active_restart (n0 : OSDNode) (m : MOSDMap)
    (hact : n0.state = NodeState.active)
    (hex : OSDMap.exists_osd n0.osdmap n0.whoami = true)
    (hmis : OSDMap.is_up n0.osdmap n0.whoami = false ∨
      ¬ OSDMap.get_addrs n0.osdmap n0.whoami = n0.myaddrs ∨
      ¬ OSDMap.get_cluster_addrs n0.osdmap n0.whoami = n0.cluster_myaddrs)
    (hbind : n0.bind_epoch < n0.osdmap.epoch) :
    (OSD.committed_tail n0 m).1.beacon_armed = false ∧
    (OSD.committed_tail n0 m).1.heartbeat_armed = false ∧
    (OSD.committed_tail n0 m).1.up_epoch = 0 ∧
    (OSD.committed_tail n0 m).1.bind_epoch = n0.osdmap.epoch ∧
    (OSD.committed_tail n0 m).1.state = NodeState.preboot ∧
    n0.bind_epoch < (OSD.committed_tail n0 m).1.bind_epoch ∧
    (OSD.committed_tail n0 m).2 = OSDAction.getVersion := by
  obtain ⟨p1, p2, p3, p4, p5, p6, p7, p8, p9, p10, p11, p12, p13⟩ :=
    tail_prestage_core n0
  have hstate : (OSD.tail_prestage n0).state = NodeState.active := by
    rw [p13 (by rw [hact]; intro h; cases h)]
    exact hact
  have hex' : OSDMap.exists_osd (OSD.tail_prestage n0).osdmap
      (OSD.tail_prestage n0).whoami = true := by
    rw [p1, p5]; exact hex
  have hsr : OSD.should_restart (OSD.tail_prestage n0) = true := by
    apply should_restart_of_mismatch
    rw [p1, p5, p8, p9]
    exact hmis
  have hd : OSD.committed_tail n0 m = OSD.restart (OSD.tail_prestage n0) := by
    unfold OSD.committed_tail
    exact lifecycle_dispatch_restart _ m hstate hex' hsr
  rw [hd]
  unfold OSD.restart OSD.start_boot
  refine ⟨rfl, rfl, rfl, ?_, rfl, ?_, rfl⟩
  · show (OSD.tail_prestage n0).osdmap.epoch = n0.osdmap.epoch
    rw [p1]
  · show n0.bind_epoch < (OSD.tail_prestage n0).osdmap.epoch
    rw [p1]
    exact hbind

/-- Witness for C7: `activeNode`'s recorded cluster address (21) differs
from its bound one (20); the tail of the commit pipeline re-enters preboot
and raises the bind epoch from 2 to 5. -/
theorem C7_witness :
    (OSD.committed_tail activeNode gapMsg).1.state = NodeState.preboot ∧
    activeNode.bind_epoch < (OSD.committed_tail activeNode gapMsg).1.bind_epoch ∧
    (OSD.committed_tail activeNode gapMsg).1.up_epoch = 0 := by
  have h := C7_active_restart activeNode gapMsg rfl (by decide)
    (Or.inr (Or.inr (by decide))) (by decide)
  exact ⟨h.2.2.2.2.1, h.2.2.2.2.2.1, h.2.2.1⟩

/-- C8: `store(e, bytes)` writes through to the byte cache and appends the
write to the caller's transaction without committing (durable state is
untouched); `get(e)` after the store returns a snapshot decode-equal to
decoding the bytes directly — straight away (resolved through the caches),
and still after the transaction commits and both caches are arbitrarily
evicted (reloaded from the persisted bytes). -/
theorem C8_store_get_roundtrip (n : OSDNode) (t : Txn) (e : Nat) (bl : Bytes)
    (he : 0 < e)
    (hsnap : alLookup n.osdmaps e = none) :
    (OSD.store_map_bl n t e bl).1.persisted = n.persisted ∧
    (OSD.store_map_bl n t e bl).2.map_writes = t.map_writes ++ [(e, bl)] ∧
    alLookup (OSD.store_map_bl n t e bl).1.map_bl_cache e = some bl ∧
    (∃ n2, OSD.get_map (OSD.store_map_bl n t e bl).1 e
      = some (decodeMap bl, n2)) ∧
    (∀ P Q : Nat → Bool,
      ∃ n3, OSD.get_map
          (evictCaches
            (OSD.commitTxn (OSD.store_map_bl n t e bl).1
              (OSD.store_map_bl n t e bl).2) P Q) e
        = some (decodeMap bl, n3)) := by
  refine ⟨rfl, rfl, alLookup_alInsert_self _ _ _, ?_, ?_⟩
  · unfold OSD.get_map
    have h1 : alLookup (OSD.store_map_bl n t e bl).1.osdmaps e = none := hsnap
    simp only [h1]
    unfold OSD.load_map OSD.load_map_bl
    rw [if_pos he]
    have h2 : alLookup (OSD.store_map_bl n t e bl).1.map_bl_cache e = some bl :=
      alLookup_alInsert_self _ _ _
    simp only [h2]
    exact ⟨_, rfl⟩
  · intro P Q
    unfold OSD.get_map
    have e1 : (evictCaches (OSD.commitTxn (OSD.store_map_bl n t e bl).1
        (OSD.store_map_bl n t e bl).2) P Q).osdmaps
        = n.osdmaps.filter (fun p => P p.1) := rfl
    have e2 : (evictCaches (OSD.commitTxn (OSD.store_map_bl n t e bl).1
        (OSD.store_map_bl n t e bl).2) P Q).map_bl_cache
        = (alInsert n.map_bl_cache e bl).filter (fun p => Q p.1) := rfl
    have e3 : (evictCaches (OSD.commitTxn (OSD.store_map_bl n t e bl).1
        (OSD.store_map_bl n t e bl).2) P Q).persisted
        = (t.map_writes ++ [(e, bl)]).foldl
            (fun ps p => alInsert ps p.1 p.2) n.persisted := rfl
    have h1 : alLookup (evictCaches (OSD.commitTxn (OSD.store_map_bl n t e bl).1
        (OSD.store_map_bl n t e bl).2) P Q).osdmaps e = none := by
      rw [e1, alLookup_filter]
      split_ifs
      · exact hsnap
      · rfl
    simp only [h1]
    unfold OSD.load_map OSD.load_map_bl
    rw [if_pos he]
    have h3 : alLookup (evictCaches (OSD.commitTxn (OSD.store_map_bl n t e bl).1
        (OSD.store_map_bl n t e bl).2) P Q).persisted e = some bl := by
      rw [e3]
      exact alLookup_foldl_alInsert_append_last _ _ _ _
    by_cases hQ : Q e = true
    · have h2 : alLookup (evictCaches (OSD.commitTxn
          (OSD.store_map_bl n t e bl).1
          (OSD.store_map_bl n t e bl).2) P Q).map_bl_cache e = some bl := by
        rw [e2, alLookup_filter, if_pos hQ]
        exact alLookup_alInsert_self _ _ _
      simp only [h2]
      exact ⟨_, rfl⟩
    · have h2 : alLookup (evictCaches (OSD.commitTxn
          (OSD.store_map_bl n t e bl).1
          (OSD.store_map_bl n t e bl).2) P Q).map_bl_cache e = none := by
        rw [e2, alLookup_filter, if_neg hQ]
      simp only [h2, h3]
      exact ⟨_, rfl⟩

/-- Witness for C8: storing the bytes of epoch 2 at `freshNode` and reading
them back through `get_map`. -/
theorem C8_witness :
    ∃ n2, OSD.get_map
        (OSD.store_map_bl freshNode Txn.empty 2 (Bytes.full map1)).1 2
      = some (decodeMap (Bytes.full map1), n2) :=
  (C8_store_get_roundtrip freshNode Txn.empty 2 (Bytes.full map1)
    (by decide) rfl).2.2.2.1

/-- C9: starting from `up_epoch = 0`, map-batch application and restarts
keep `up_epoch` at 0 and never change `boot_epoch` (the advance step's
assignments are guarded by `up_epoch != 0`, and restart resets `up_epoch`
to 0); consequently the superblock-update site of the ingestion path,
guarded by a nonzero `boot_epoch`, leaves `mounted` and `clean_thru`
untouched on any node whose `boot_epoch` is 0. -/
theorem C9_up_boot_epochs_stay_zero (n : OSDNode) (evs : List OSDEvent)
    (h0 : n.up_epoch = 0) :
    (runEvents n evs).up_epoch = 0 ∧
    (runEvents n evs).boot_epoch = n.boot_epoch ∧
    (∀ (q : OSDNode) (first last : Nat) (skip : Bool), q.boot_epoch = 0 →
      (OSD.update_superblock_for_batch q first last skip).superblock.mounted
        = q.superblock.mounted ∧
      (OSD.update_superblock_for_batch q first last skip).superblock.clean_thru
        = q.superblock.clean_thru) := by
  obtain ⟨h1, h2⟩ := runEvents_upboot evs n h0
  refine ⟨h1, h2, ?_⟩
  intro q first last skip hq
  unfold OSD.update_superblock_for_batch
  dsimp only
  split_ifs with hA hB hB'
  · exact absurd hq hB.1
  · exact ⟨rfl, rfl⟩
  · exact absurd hq hB'.1
  · exact ⟨rfl, rfl⟩

/-- Witness for C9: a map batch followed by a restart at `freshNode`. -/
theorem C9_witness :
    (runEvents freshNode [OSDEvent.mapMsg batchMsg,
        OSDEvent.restartEv]).up_epoch = 0 ∧
    (runEvents freshNode [OSDEvent.mapMsg batchMsg,
        OSDEvent.restartEv]).boot_epoch = freshNode.boot_epoch := by
  have h := C9_up_boot_epochs_stay_zero freshNode
    [OSDEvent.mapMsg batchMsg, OSDEvent.restartEv] rfl
  exact ⟨h.1, h.2.1⟩

/-- C10 counterexample: the frozen claim fails at `freshNode` with
`holeIncMsg` — the batch is accepted (matching fsid, not stale, no gap)
and its payload carries nothing for epoch 2 of the applied range 1..3, but
because epoch 3 is incremental-only, storing it must load the missing
epoch 2: `store_maps` throws, the batch aborts instead of being applied,
and the superblock's `newest_map` is not updated to `last`. -/
theorem C10_counterexample :
    holeIncMsg.fsid = freshNode.superblock.cluster_fsid ∧
    ¬ freshNode.state = NodeState.initializing ∧
    freshNode.superblock.newest_map < holeIncMsg.get_last ∧
    holeIncMsg.get_first ≤ freshNode.superblock.newest_map + 1 ∧
    alLookup holeIncMsg.maps 2 = none ∧
    alLookup holeIncMsg.incremental_maps 2 = none ∧
    freshNode.superblock.newest_map + 1 ≤ 2 ∧
    2 ≤ holeIncMsg.get_last ∧
    (OSD.handle_osd_map freshNode holeIncMsg).isStoreFailed = true ∧
    (OSD.handle_osd_map freshNode holeIncMsg).isApplied = false ∧
    ¬ (OSD.handle_osd_map freshNode holeIncMsg).node.superblock.newest_map
        = holeIncMsg.get_last := by
  decide

/-- C10 (amended): when an accepted batch's payload carries neither a full
encoding nor an incremental diff for an epoch `e` of the range being
applied (the node holding no record of `e`), the store loop logs and skips
`e`, and the outcome depends on the epochs after the hole: if every other
epoch of the range carries a full encoding, `store_maps` succeeds, the
batch is applied, the superblock records `newest_map = last`, the other
epochs are persisted, and nothing is ever persisted or cached for `e`;
but if the next epoch `e + 1` of the range carries only an incremental
diff, storing it must load the missing epoch `e`, so `store_maps` throws
and the batch aborts without updating the superblock — `newest_map` keeps
its old value, not `last`. -/
theorem C10_missing_epoch_outcome (n : OSDNode) (m : MOSDMap) (e : Nat)
    (hfsid : m.fsid = n.superblock.cluster_fsid)
    (hinit : ¬ n.state = NodeState.initializing)
    (hstale : n.superblock.newest_map < m.get_last)
    (hnogap : m.get_first ≤ n.superblock.newest_map + 1)
    (hmiss_f : alLookup m.maps e = none)
    (hmiss_i : alLookup m.incremental_maps e = none)
    (hlo : n.superblock.newest_map + 1 ≤ e) (hhi : e ≤ m.get_last)
    (hbl : alLookup n.map_bl_cache e = none)
    (hos : alLookup n.osdmaps e = none)
    (hpe : alLookup n.persisted e = none) :
    ((∀ x, n.superblock.newest_map + 1 ≤ x → x ≤ m.get_last → ¬ x = e →
        (alLookup m.maps x).isSome = true) →
      (OSD.batch_store n m (n.superblock.newest_map + 1) m.get_last).2.2
        = true ∧
      ∃ n' tr ok act,
        OSD.handle_osd_map n m
          = HandleResult.applied n' (n.superblock.newest_map + 1) m.get_last
              tr ok act ∧
        n'.superblock.newest_map = m.get_last ∧
        alLookup n'.persisted e = none ∧
        alLookup n'.map_bl_cache e = none ∧
        alLookup n'.osdmaps e = none ∧
        (∀ x, n.superblock.newest_map + 1 ≤ x → x ≤ m.get_last → ¬ x = e →
          (alLookup n'.persisted x).isSome = true)) ∧
    (alLookup m.maps (e + 1) = none →
      (alLookup m.incremental_maps (e + 1)).isSome = true →
      e + 1 ≤ m.get_last →
      OSD.handle_osd_map n m
        = HandleResult.storeFailed
            (OSD.batch_store n m (n.superblock.newest_map + 1)
              m.get_last).1 ∧
      (OSD.batch_store n m (n.superblock.newest_map + 1)
        m.get_last).1.superblock.newest_map = n.superblock.newest_map) := by
  have happly : OSD.handle_osd_map n m
      = OSD.apply_batch n m (n.superblock.newest_map + 1) m.get_first
          m.get_last false := by
    unfold OSD.handle_osd_map
    dsimp only
    rw [if_neg (not_not_intro hfsid), if_neg hinit, if_neg (by omega),
        if_neg (by omega)]
  constructor
  · intro hothers
    exact handle_skip_epoch_applied n m e hmiss_f hmiss_i hlo hhi hothers
      hbl hos hpe happly
  · intro hnext_f hnext_i hnext_le
    have hfail : (OSD.batch_store n m (n.superblock.newest_map + 1)
        m.get_last).2.2 = false := by
      have he0 : 0 < e := by omega
      have hmem : (e + 1) ∈ List.range' (n.superblock.newest_map + 1)
          (m.get_last + 1 - (n.superblock.newest_map + 1)) :=
        mem_range'_of_bounds (by omega) (by omega)
      exact store_go_fails_missing_pred he0 hmiss_f hmiss_i hnext_f hnext_i
        (List.range' (n.superblock.newest_map + 1)
          (m.get_last + 1 - (n.superblock.newest_map + 1))) n Txn.empty
        hmem hbl hpe
    constructor
    · rw [happly]
      unfold OSD.apply_batch
      rw [if_pos hfail]
    · obtain ⟨om, bc, hsh⟩ :=
        batch_store_shape n m (n.superblock.newest_map + 1) m.get_last
      rw [hsh]
/-- Witness for C10: the success branch at `holeMsg`, which carries full
epochs 1 and 3 but nothing for epoch 2; `freshNode` applies it anyway. -/
theorem C10_witness :
    (OSD.batch_store freshNode holeMsg
      (freshNode.superblock.newest_map + 1) holeMsg.get_last).2.2 = true ∧
    ∃ n' tr ok act,
      OSD.handle_osd_map freshNode holeMsg
        = HandleResult.applied n' (freshNode.superblock.newest_map + 1)
            holeMsg.get_last tr ok act ∧
      n'.superblock.newest_map = holeMsg.get_last ∧
      alLookup n'.persisted 2 = none ∧
      alLookup n'.map_bl_cache 2 = none ∧
      alLookup n'.osdmaps 2 = none ∧
      (∀ x, freshNode.superblock.newest_map + 1 ≤ x → x ≤ holeMsg.get_last →
        ¬ x = 2 → (alLookup n'.persisted x).isSome = true) :=
  (C10_missing_epoch_outcome freshNode holeMsg 2 rfl (by decide) (by decide)
    (by decide) rfl rfl (by decide) (by decide) rfl rfl rfl).1
    (by
      intro x h1 h2 hx
      have hL : holeMsg.get_last = 3 := by decide
      rw [hL] at h2
      have hx13 : x = 1 ∨ x = 3 := by omega
      rcases hx13 with h | h <;> subst h <;> decide)

end CrimsonOSD
